import Mathlib

/-!
# AdjustVolume::adjust_boundaries

A shallow embedding of `AdjustVolume::adjust_boundaries`
(`Source/DREAM3DLib/SyntheticBuilderFilters/AdjustVolume.cpp`) and the
properties of one adjustment step.

Conventions of the embedding.

* The flat arrays `grain_indicies`, `reassigned`, `gsizes` and `newnames` are
  memories `Nat → _`; the domain of the grid is `[0, totalpoints)`.
  Grain ids are natural numbers (the source stores them in `int`, the data
  model has them `≥ 1`).
* The growable vectors `voxellist` and `affectedvoxellist` are the lists of
  their first `count` / `affectedcount` entries.
* `m_Grains` is a list (it is erased from in the middle).
* `genrand_res53()` returns `k / 2^53`; a draw is its numerator `k`.
  The product `r * size` is one `double` multiplication, rounded to the
  nearest `double` with ties to even (`roundDouble`), and `int()` truncates
  it; the two clamps of lines 151-152 follow. The table has fewer than
  `2^31` slots, so `size` converts to `double` exactly and `int()` is in range.
* `check_sizedisterror` belongs to `PackGrainsGen2`; its two results are
  parameters of the step. They are `float`s, modelled by `Score`: NaN, or a
  value of a linearly ordered type (`-0` and `+0` count as one value). A
  comparison with NaN on either side is false, as for IEEE floats.
* `2.0*powf(gsizes*voxtovol, 1/3)` is the parameter `diam`.
* Loops that may not end take fuel and return `none` when it runs out.
-/

namespace AdjustVolume

/-! ## Floats -/

/-- A `float` score as the comparisons of lines 231 and 239 see it: NaN, or a value that
compares. -/
inductive Score (E : Type) where
  | nan : Score E
  | val : E → Score E
  deriving DecidableEq

/-- The test `a <= b` on two `float`s: false as soon as one of them is NaN. -/
def Score.le {E : Type} [LinearOrder E] : Score E → Score E → Prop
  | Score.val x, Score.val y => x ≤ y
  | Score.val _, Score.nan => False
  | Score.nan, _ => False

/-- The test `a > b` on two `float`s: false as soon as one of them is NaN. -/
def Score.gt {E : Type} [LinearOrder E] : Score E → Score E → Prop
  | Score.val x, Score.val y => x > y
  | Score.val _, Score.nan => False
  | Score.nan, _ => False

instance Score.decidableLe {E : Type} [LinearOrder E] (a b : Score E) : Decidable (a.le b) :=
  match a, b with
  | Score.val x, Score.val y => inferInstanceAs (Decidable (x ≤ y))
  | Score.val _, Score.nan => isFalse fun h => h
  | Score.nan, _ => isFalse fun h => h

instance Score.decidableGt {E : Type} [LinearOrder E] (a b : Score E) : Decidable (a.gt b) :=
  match a, b with
  | Score.val x, Score.val y => inferInstanceAs (Decidable (x > y))
  | Score.val _, Score.nan => isFalse fun h => h
  | Score.nan, _ => isFalse fun h => h

/-- The number of binary digits of `n`, by halving; `fuel ≥ n` is enough. -/
def bitLength : Nat → Nat → Nat
  | 0, _ => 0
  | fuel + 1, n => if n = 0 then 0 else bitLength fuel (n / 2) + 1

/-- The `double` nearest to `M / 2^53`, ties to even, as a numerator over `2^53`: `M` is
kept when it has at most 53 binary digits, otherwise it is rounded to 53 significant
digits. -/
def roundDouble (M : Nat) : Nat :=
  let s := bitLength M M - 53
  let q := M / 2 ^ s
  let rem := M % 2 ^ s
  let q := if 2 * rem > 2 ^ s ∨ (2 * rem = 2 ^ s ∧ q % 2 = 1) then q + 1 else q
  q * 2 ^ s

/-! ## Data model -/

/-- One record of `m_Grains`: the boundary flag and the equivalent diameter. -/
structure Grain (D : Type) where
  surfacegrain : Int
  equivdiameter : D

/-- The part of the data container `m` the step reads and writes. -/
structure DataContainer (D : Type) where
  xpoints : Nat
  ypoints : Nat
  zpoints : Nat
  grain_indicies : Nat → Nat
  m_Grains : List (Grain D)

/-- Modelled from the spec: `totalpoints` is a field of the data container whose
declaration is not among the sources; the data model gives it as `X*Y*Z`. -/
def DataContainer.totalpoints {D : Type} (m : DataContainer D) : Nat :=
  m.xpoints * m.ypoints * m.zpoints

/-! ## Geometry (lines 103-109, 171-183) -/

/-- The array `neighpoints[6]` of index offsets. -/
def neighpoints (xpoints ypoints : Nat) (j : Nat) : Int :=
  match j with
  | 0 => -((xpoints : Int) * (ypoints : Int))
  | 1 => -(xpoints : Int)
  | 2 => -1
  | 3 => 1
  | 4 => (xpoints : Int)
  | 5 => (xpoints : Int) * (ypoints : Int)
  | _ => 0

/-- The value of `good` after lines 176-183, for the voxel `index` and direction `j`. -/
def good (xpoints ypoints zpoints : Nat) (index j : Nat) : Nat :=
  let x := index % xpoints
  let y := (index / xpoints) % ypoints
  let z := index / (xpoints * ypoints)
  let g := 1
  let g := if j = 0 ∧ z = 0 then 0 else g
  let g := if j = 5 ∧ (z : Int) = (zpoints : Int) - 1 then 0 else g
  let g := if j = 1 ∧ y = 0 then 0 else g
  let g := if j = 4 ∧ (y : Int) = (ypoints : Int) - 1 then 0 else g
  let g := if j = 2 ∧ x = 0 then 0 else g
  let g := if j = 3 ∧ (x : Int) = (xpoints : Int) - 1 then 0 else g
  g

/-- The value of `neighpoint` (line 177), an `int`. -/
def neighpoint (xpoints ypoints : Nat) (index j : Nat) : Int :=
  (index : Int) + neighpoints xpoints ypoints j

/-! ## Size table (lines 124-138) -/

/-- Lines 124-131: `gsizes.resize(size)` and the loop that clears slots `1 .. size-1`.
`old` is what the member vector held before. -/
def initGsizes (old : Nat → Int) (size : Nat) : Nat → Int :=
  fun i => if 1 ≤ i ∧ i < size then 0 else old i

/-- Lines 134-138: `gsizes[grain_indicies[i]]++` for every voxel. -/
def countGsizes (grain_indicies : Nat → Nat) (totalpoints : Nat) (gsizes : Nat → Int) :
    Nat → Int :=
  (List.range totalpoints).foldl
    (fun g i => Function.update g (grain_indicies i) (g (grain_indicies i) + 1)) gsizes

/-! ## Selection (lines 147-157) -/

/-- Lines 150-152: the candidate id computed from the draw `k / 2^53`. The product
`r * size` is rounded to a `double` before `int()` truncates it. -/
def candidate (size : Nat) (k : Nat) : Nat :=
  let selectedgrain := roundDouble (k * size) / 2 ^ 53
  let selectedgrain := if selectedgrain ≥ size then size - 1 else selectedgrain
  let selectedgrain := if selectedgrain = 0 then 1 else selectedgrain
  selectedgrain

/-- Lines 147-154: draw until a grain without the boundary flag comes up. Returns the grain
and the number of the next unused draw; `none` when the fuel runs out (or the table has no
slot `selectedgrain`). -/
def selectGrain {D : Type} (m_Grains : List (Grain D)) (rg : Nat → Nat) :
    Nat → Nat → Option (Nat × Nat)
  | 0, _ => none
  | fuel + 1, k =>
    let selectedgrain := candidate m_Grains.length (rg k)
    match m_Grains[selectedgrain]? with
    | none => none
    | some g =>
      if g.surfacegrain > 0 then selectGrain m_Grains rg fuel (k + 1)
      else some (selectedgrain, k + 1)

/-- Lines 155-157: the direction from one draw. The draw `k / 2^53` is stored in the `float`
variable `random` (24 significant bits, round to nearest even), so every draw from
`1/2 - 2^-26` on is stored as `0.5`: `random < 0.5` holds exactly when `k < 2^52 - 2^27`. -/
def growthOf (k : Nat) : Int :=
  if k < 2 ^ 52 - 2 ^ 27 then -1 else 1

/-! ## Nucleus search (lines 158-165) -/

/-- Lines 161-165. Returns `(selectedgrain, nucleus)` at loop exit. `selectedgrain` is a
`size_t`; its wrap-around after `2^64` increments is not modelled, the search simply does not
end when no voxel carries an id at or above the one it started from. -/
def findNucleus (grain_indicies : Nat → Nat) (totalpoints : Nat) :
    Nat → Nat → Nat → Option (Nat × Nat)
  | 0, _, _ => none
  | fuel + 1, selectedgrain, nucleus =>
    if grain_indicies nucleus ≠ selectedgrain then
      if nucleus + 1 ≥ totalpoints then
        findNucleus grain_indicies totalpoints fuel (selectedgrain + 1) 0
      else
        findNucleus grain_indicies totalpoints fuel selectedgrain (nucleus + 1)
    else some (selectedgrain, nucleus)

/-! ## Flood fill and perturbation (lines 166-211) -/

/-- The arrays the worklist loop writes. -/
structure StepState where
  grain_indicies : Nat → Nat
  reassigned : Nat → Int
  voxellist : List Nat
  affectedvoxellist : List Nat

/-- Lines 184-190: the enqueue branch. -/
def enqueue (selectedgrain : Nat) (np : Nat) (st : StepState) : StepState :=
  if st.grain_indicies np = selectedgrain ∧ st.reassigned np = 0 then
    { st with
      voxellist := st.voxellist ++ [np]
      reassigned := Function.update st.reassigned np (-1) }
  else st

/-- Lines 193-200: the grow branch. -/
def grow (growth : Int) (index np : Nat) (st : StepState) : StepState :=
  if growth = 1 ∧ st.reassigned np ≤ 0 then
    { st with
      reassigned := Function.update st.reassigned np (st.grain_indicies np : Int)
      grain_indicies := Function.update st.grain_indicies np (st.grain_indicies index)
      affectedvoxellist := st.affectedvoxellist ++ [np] }
  else st

/-- Lines 201-208: the shrink branch. -/
def shrink (growth : Int) (index np : Nat) (st : StepState) : StepState :=
  if growth = -1 ∧ st.reassigned np ≤ 0 then
    { st with
      reassigned := Function.update st.reassigned index (st.grain_indicies index : Int)
      grain_indicies := Function.update st.grain_indicies index (st.grain_indicies np)
      affectedvoxellist := st.affectedvoxellist ++ [index] }
  else st

/-- Lines 176-209: the body of the `j` loop. -/
def visit (xpoints ypoints zpoints : Nat) (selectedgrain : Nat) (growth : Int) (index : Nat)
    (st : StepState) (j : Nat) : StepState :=
  if good xpoints ypoints zpoints index j = 1 then
    let np := (neighpoint xpoints ypoints index j).toNat
    let st1 := enqueue selectedgrain np st
    if st1.grain_indicies np ≠ selectedgrain ∧ st1.grain_indicies index = selectedgrain then
      shrink growth index np (grow growth index np st1)
    else st1
  else st

/-- Lines 170-210: the six directions of one worklist entry. -/
def processVoxel (xpoints ypoints zpoints : Nat) (selectedgrain : Nat) (growth : Int)
    (index : Nat) (st : StepState) : StepState :=
  (List.range 6).foldl (visit xpoints ypoints zpoints selectedgrain growth index) st

/-- Lines 168-211: the worklist loop `for(i=0; i<count; ++i)`, from position `i`. -/
def flood (xpoints ypoints zpoints : Nat) (selectedgrain : Nat) (growth : Int) :
    Nat → Nat → StepState → Option StepState
  | 0, _, _ => none
  | fuel + 1, i, st =>
    match st.voxellist[i]? with
    | none => some st
    | some index =>
      flood xpoints ypoints zpoints selectedgrain growth fuel (i + 1)
        (processVoxel xpoints ypoints zpoints selectedgrain growth index st)

/-- Lines 158-167: the state in which the worklist loop starts. -/
def startState (grain_indicies : Nat → Nat) (nucleus : Nat) : StepState :=
  { grain_indicies := grain_indicies
    reassigned := fun _ => 0
    voxellist := [nucleus]
    affectedvoxellist := [] }

/-! ## Bookkeeping, diameters, accept / reject (lines 212-262) -/

/-- Lines 214-219: the size update for one affected voxel. -/
def bookVoxel (st : StepState) (gsizes : Nat → Int) (index : Nat) : Nat → Int :=
  if st.reassigned index > 0 then
    let g1 := Function.update gsizes (st.grain_indicies index)
      (gsizes (st.grain_indicies index) + 1)
    Function.update g1 (st.reassigned index).toNat (g1 (st.reassigned index).toNat - 1)
  else gsizes

/-- Lines 212-220. -/
def bookkeeping (st : StepState) (gsizes : Nat → Int) : Nat → Int :=
  st.affectedvoxellist.foldl (bookVoxel st) gsizes

/-- Lines 221-226 and 252-257: every record from slot 1 on gets the diameter of its size. -/
def updateDiameters {D : Type} (diam : Int → D) (gsizes : Nat → Int)
    (m_Grains : List (Grain D)) : List (Grain D) :=
  m_Grains.enum.map fun p =>
    if 1 ≤ p.1 then { p.2 with equivdiameter := diam (gsizes p.1) } else p.2

/-- Lines 234-237: the erase loop, from position `i`. -/
def eraseLoop {D : Type} (gsizes : Nat → Int) :
    Nat → Nat → List (Grain D) → Option (List (Grain D))
  | 0, _, _ => none
  | fuel + 1, i, m_Grains =>
    if i < m_Grains.length then
      eraseLoop gsizes fuel (i + 1) (if gsizes i = 0 then m_Grains.eraseIdx i else m_Grains)
    else some m_Grains

/-- Lines 244-250: the rollback of one affected voxel, on the grid and the sizes. -/
def rollbackVoxel (reassigned : Nat → Int) (p : (Nat → Nat) × (Nat → Int)) (index : Nat) :
    (Nat → Nat) × (Nat → Int) :=
  if reassigned index > 0 then
    let g1 := Function.update p.2 (p.1 index) (p.2 (p.1 index) - 1)
    let grid := Function.update p.1 index (reassigned index).toNat
    (grid, Function.update g1 (grid index) (g1 (grid index) + 1))
  else p

/-- Lines 242-251. -/
def rollback (st : StepState) (gsizes : Nat → Int) : (Nat → Nat) × (Nat → Int) :=
  st.affectedvoxellist.foldl (rollbackVoxel st.reassigned) (st.grain_indicies, gsizes)

/-- What is left when the `while` body has run (line 263). -/
structure StepResult (D E : Type) where
  grain_indicies : Nat → Nat
  m_Grains : List (Grain D)
  gsizes : Nat → Int
  reassigned : Nat → Int
  oldsizedisterror : Score E
  bad : Nat
  selectedgrain : Nat
  growth : Int
  nucleus : Nat
  voxellist : List Nat
  affectedvoxellist : List Nat

/-- Lines 212-262: bookkeeping, diameters, the two tests on the score, and the clearing of
`reassigned`. `st` is the state the worklist loop left. The two tests are separate `if`s:
with a NaN score neither holds, and neither the commit nor the rollback runs. -/
def resolve {D E : Type} [LinearOrder E] (fuel : Nat) (diam : Int → D)
    (oldsizedisterror currentsizedisterror : Score E) (gsizes : Nat → Int)
    (m_Grains : List (Grain D)) (selectedgrain : Nat) (growth : Int) (nucleus : Nat)
    (st : StepState) : Option (StepResult D E) :=
  let gsizes1 := bookkeeping st gsizes
  let grains1 := updateDiameters diam gsizes1 m_Grains
  let accepted :=
    if currentsizedisterror.le oldsizedisterror then
      (eraseLoop gsizes1 fuel 1 grains1).map fun g => (currentsizedisterror, g)
    else some (oldsizedisterror, grains1)
  match accepted with
  | none => none
  | some (olderr2, grains2) =>
    let r :=
      if currentsizedisterror.gt olderr2 then
        let p := rollback st gsizes1
        (1, p.1, p.2, updateDiameters diam p.2 grains2)
      else (0, st.grain_indicies, gsizes1, grains2)
    some
      { grain_indicies := r.2.1
        m_Grains := r.2.2.2
        gsizes := r.2.2.1
        reassigned := fun _ => 0
        oldsizedisterror := olderr2
        bad := r.1
        selectedgrain := selectedgrain
        growth := growth
        nucleus := nucleus
        voxellist := st.voxellist
        affectedvoxellist := st.affectedvoxellist }

/-- Lines 143-263: the single pass of the `while(iterations < 1)` loop. -/
def step {D E : Type} [LinearOrder E] (fuel : Nat) (diam : Int → D) (rg : Nat → Nat)
    (oldsizedisterror currentsizedisterror : Score E) (gsizes : Nat → Int)
    (m : DataContainer D) : Option (StepResult D E) :=
  match selectGrain m.m_Grains rg fuel 0 with
  | none => none
  | some (selected0, k) =>
    let growth := growthOf (rg k)
    match findNucleus m.grain_indicies m.totalpoints fuel selected0 0 with
    | none => none
    | some (selectedgrain, nucleus) =>
      match flood m.xpoints m.ypoints m.zpoints selectedgrain growth fuel 0
          (startState m.grain_indicies nucleus) with
      | none => none
      | some st =>
        resolve fuel diam oldsizedisterror currentsizedisterror gsizes m.m_Grains
          selectedgrain growth nucleus st

/-! ## Renumbering (lines 264-273) -/

/-- Lines 264-269: `newnames[i] = i` for `1 ≤ i < size`; every other slot keeps what the
fresh array `raw` held. -/
def newnames (raw : Nat → Nat) (size : Nat) : Nat → Nat :=
  fun i => if 1 ≤ i ∧ i < size then i else raw i

/-- What `adjust_boundaries` leaves behind: the data container, the member `gsizes`, and the
locals of the step. -/
structure Result (D E : Type) where
  m : DataContainer D
  gsizes : Nat → Int
  oldsizedisterror : Score E
  bad : Nat
  selectedgrain : Nat
  growth : Int
  nucleus : Nat
  voxellist : List Nat
  affectedvoxellist : List Nat

/-- The whole of `AdjustVolume::adjust_boundaries` (lines 99-274). `gsizes_old` is the earlier
content of the member `gsizes`, `raw` the content of the fresh `newnames` array, and
`oldsizedisterror`, `currentsizedisterror` the two results of `check_sizedisterror`. -/
def adjust_boundaries {D E : Type} [LinearOrder E] (fuel : Nat) (diam : Int → D)
    (rg : Nat → Nat) (oldsizedisterror currentsizedisterror : Score E)
    (gsizes_old : Nat → Int)
    (raw : Nat → Nat) (m : DataContainer D) : Option (Result D E) :=
  let gsizes := countGsizes m.grain_indicies m.totalpoints
    (initGsizes gsizes_old m.m_Grains.length)
  match step fuel diam rg oldsizedisterror currentsizedisterror gsizes m with
  | none => none
  | some r =>
    let names := newnames raw r.m_Grains.length
    some
      { m := { m with
          grain_indicies := fun i =>
            if i < m.totalpoints then names (r.grain_indicies i) else r.grain_indicies i
          m_Grains := r.m_Grains }
        gsizes := r.gsizes
        oldsizedisterror := r.oldsizedisterror
        bad := r.bad
        selectedgrain := r.selectedgrain
        growth := r.growth
        nucleus := r.nucleus
        voxellist := r.voxellist
        affectedvoxellist := r.affectedvoxellist }

/-! ## Notions the properties are stated with -/

/-- The claim's table of directions: the unit move of direction `j`, in the order
`-z, -y, -x, +x, +y, +z`. -/
def unitMove (j : Nat) : Int × Int × Int :=
  match j with
  | 0 => (0, 0, -1)
  | 1 => (0, -1, 0)
  | 2 => (-1, 0, 0)
  | 3 => (1, 0, 0)
  | 4 => (0, 1, 0)
  | 5 => (0, 0, 1)
  | _ => (0, 0, 0)

/-- The cell `(x, y, z)` moved by `d` is a cell of the `X × Y × Z` domain. -/
def inDomain (X Y Z : Nat) (x y z : Int) (d : Int × Int × Int) : Prop :=
  0 ≤ x + d.1 ∧ x + d.1 < X ∧ 0 ≤ y + d.2.1 ∧ y + d.2.1 < Y ∧ 0 ≤ z + d.2.2 ∧ z + d.2.2 < Z


/-- What holds of the arrays all through the worklist loop, for a step that started from the
grid `grid0` with `totalpoints = N`: the affected list has no repeats, a voxel is listed
exactly when its marker is positive, a positive marker is the voxel's id in `grid0`, a voxel
whose marker is not positive still has that id, and every id of the grid is `≥ 1` and
satisfies `Q`. -/
structure FloodInv (N : Nat) (Q : Nat → Prop) (grid0 : Nat → Nat) (selectedgrain : Nat)
    (growth : Int) (st : StepState) : Prop where
  vox_lt : ∀ v ∈ st.voxellist, v < N
  aff_lt : ∀ a ∈ st.affectedvoxellist, a < N
  nodup : st.affectedvoxellist.Nodup
  mem_iff : ∀ i, i ∈ st.affectedvoxellist ↔ 0 < st.reassigned i
  orig : ∀ i, 0 < st.reassigned i → st.reassigned i = (grid0 i : Int)
  keep : ∀ i, st.reassigned i ≤ 0 → st.grain_indicies i = grid0 i
  range : ∀ i, i < N → 1 ≤ st.grain_indicies i ∧ Q (st.grain_indicies i)
  shrunk : growth = -1 → ∀ a ∈ st.affectedvoxellist, st.grain_indicies a ≠ selectedgrain
  outside : ∀ i, N ≤ i → st.reassigned i = 0

/-- The number of voxels whose marker `reassigned` is `0`. -/
def zeros (N : Nat) (reassigned : Nat → Int) : Nat :=
  ((Finset.range N).filter fun i => reassigned i = 0).card

/-- The sum of the sizes `gsizes[id]` over the grain ids `1 .. size-1`. -/
def sumSizes (size : Nat) (gsizes : Nat → Int) : Int :=
  Finset.sum (Finset.Ico 1 size) gsizes

/-- The number of voxels of the grid that carry the grain id `id`. -/
def voxelCount (grain_indicies : Nat → Nat) (totalpoints : Nat) (id : Nat) : Nat :=
  (List.range totalpoints).countP fun i => grain_indicies i = id

/-- The change one affected voxel `a` makes to the size of the id `x` in the bookkeeping
loop: one more for the id it carries now, one less for the id its marker records. -/
def sizeDelta (reassigned : Nat → Int) (grain_indicies : Nat → Nat) (a x : Nat) : Int :=
  if 0 < reassigned a then
    (if x = grain_indicies a then 1 else 0) - (if x = (reassigned a).toNat then 1 else 0)
  else 0

/-- The invariant together with the two bounds that make the worklist loop end: the number of
clear markers plus the length of the worklist does not exceed `M`, and the worklist has at
least `L` entries. -/
def Bounded (N : Nat) (Q : Nat → Prop) (grid0 : Nat → Nat) (sel : Nat) (growth : Int)
    (M L : Nat) (st : StepState) : Prop :=
  FloodInv N Q grid0 sel growth st ∧ zeros N st.reassigned + st.voxellist.length ≤ M ∧
    L ≤ st.voxellist.length

/-! ## The example of the specification -/

/-- The 4×4×4 grid of the example scenario: grain `A = 1` owns the voxels 21, 22, 25, 26 and
grain `B = 2` owns every other voxel. -/
def exampleGrid : Nat → Nat :=
  fun i => if i = 21 ∨ i = 22 ∨ i = 25 ∨ i = 26 then 1 else 2

/-- The data container of the example scenario: `A` is an interior grain, `B` touches the
outer faces. -/
def exampleContainer : DataContainer Unit where
  xpoints := 4
  ypoints := 4
  zpoints := 4
  grain_indicies := exampleGrid
  m_Grains := [⟨0, ()⟩, ⟨0, ()⟩, ⟨1, ()⟩]

/-- Draws for the example: the first (`0.5`) selects grain `1`, the second (`≥ 0.5`) makes
the step a grow step. -/
def exampleDraws : Nat → Nat :=
  fun k => if k = 0 then 2 ^ 52 else 2 ^ 53 - 1

/-! ## Inputs on which the step departs from the specification -/

/-- A 3×3×3 grid: the centre voxel 13 is grain `3`, every other voxel is grain `2`; no voxel
carries the id `1`. -/
def gridEmptyFirst : Nat → Nat :=
  fun i => if i = 13 then 3 else 2

/-- The container of `gridEmptyFirst`: the record of grain `1` owns no voxel and has no
boundary flag, grain `2` touches the outer faces (flag set), grain `3` is interior. -/
def containerEmptyFirst : DataContainer Unit where
  xpoints := 3
  ypoints := 3
  zpoints := 3
  grain_indicies := gridEmptyFirst
  m_Grains := [⟨0, ()⟩, ⟨0, ()⟩, ⟨1, ()⟩, ⟨0, ()⟩]

/-- Draws for a table of four slots: the first (`0.25`) gives the candidate `1`, the second
makes the step a grow step. -/
def drawsQuarter : Nat → Nat :=
  fun k => if k = 0 then 2 ^ 51 else 2 ^ 53 - 1

/-- A 3×3×3 grid: the centre voxel 13 is grain `1`, its `-x` neighbour 12 is grain `2`, its
`+x` neighbour 14 is grain `4`, every other voxel is grain `3`. -/
def gridTwoSingles : Nat → Nat :=
  fun i => if i = 13 then 1 else if i = 12 then 2 else if i = 14 then 4 else 3

/-- The container of `gridTwoSingles`: grain `1` is interior, grains `2`, `3` and `4` touch
the outer faces. -/
def containerTwoSingles : DataContainer Unit where
  xpoints := 3
  ypoints := 3
  zpoints := 3
  grain_indicies := gridTwoSingles
  m_Grains := [⟨0, ()⟩, ⟨0, ()⟩, ⟨1, ()⟩, ⟨1, ()⟩, ⟨1, ()⟩]

/-- A table of one grain, whose boundary flag is set, on a 1×1×1 grid. -/
def containerAllBoundary : DataContainer Unit where
  xpoints := 1
  ypoints := 1
  zpoints := 1
  grain_indicies := fun _ => 1
  m_Grains := [⟨0, ()⟩, ⟨1, ()⟩]

/-- A 3×3×3 grid: the centre voxel 13 is grain `1`, its `-x` neighbour 12 is grain `2`, its
`+x` neighbour 14 is grain `3`, every other voxel is grain `4`. -/
def gridAdjacentSingles : Nat → Nat :=
  fun i => if i = 13 then 1 else if i = 12 then 2 else if i = 14 then 3 else 4

/-- The container of `gridAdjacentSingles`, with integer diameters: grain `1` is interior,
grains `2`, `3` and `4` touch the outer faces. With `diam` the identity a record carries its
size as its diameter. -/
def containerAdjacentSingles : DataContainer Int where
  xpoints := 3
  ypoints := 3
  zpoints := 3
  grain_indicies := gridAdjacentSingles
  m_Grains := [⟨0, 0⟩, ⟨0, 0⟩, ⟨1, 0⟩, ⟨1, 0⟩, ⟨1, 0⟩]

/-- The size table counted from `gridAdjacentSingles` (lines 124-138). -/
def gsizesAdjacentSingles : Nat → Int :=
  countGsizes gridAdjacentSingles 27 (initGsizes (fun _ => 0) 5)

/-- The draws, as numerators `k < 2^53`, whose candidate in a table of `size` slots is `id`. -/
def drawsTo (size id : Nat) : Finset Nat :=
  (Finset.range (2 ^ 53)).filter fun k => candidate size k = id

/-- The example grid with integer diameters: the table arrives with the diameters `5` and
`59`, which are not what `diam`, the identity, gives for the sizes `4` and `60`. -/
def containerStaleDiameters : DataContainer Int where
  xpoints := 4
  ypoints := 4
  zpoints := 4
  grain_indicies := exampleGrid
  m_Grains := [⟨0, 0⟩, ⟨0, 5⟩, ⟨1, 59⟩]

/-- The voxel `index` lies on an outer face of the `X × Y × Z` domain: one of its coordinates
is `0` or the last index of its axis. -/
def onFace (X Y Z index : Nat) : Prop :=
  index % X = 0 ∨ index % X + 1 = X ∨ index / X % Y = 0 ∨ index / X % Y + 1 = Y ∨
    index / (X * Y) = 0 ∨ index / (X * Y) + 1 = Z

instance onFaceDecidable (X Y Z index : Nat) : Decidable (onFace X Y Z index) :=
  inferInstanceAs (Decidable (index % X = 0 ∨ index % X + 1 = X ∨ index / X % Y = 0 ∨
    index / X % Y + 1 = Y ∨ index / (X * Y) = 0 ∨ index / (X * Y) + 1 = Z))

/-- Every record from slot 1 on has its boundary flag set exactly when its grain owns a voxel
on an outer face of the domain. -/
def flagsTruthful {D : Type} (m : DataContainer D) : Prop :=
  ∀ id, id < m.m_Grains.length → 1 ≤ id →
    (0 < (m.m_Grains.map fun g => g.surfacegrain).getD id 0 ↔
      ∃ i, i < m.totalpoints ∧ m.grain_indicies i = id ∧
        onFace m.xpoints m.ypoints m.zpoints i)

instance flagsTruthfulDecidable {D : Type} (m : DataContainer D) : Decidable (flagsTruthful m) :=
  inferInstanceAs (Decidable (∀ id, id < m.m_Grains.length → 1 ≤ id →
    (0 < (m.m_Grains.map fun g => g.surfacegrain).getD id 0 ↔
      ∃ i, i < m.totalpoints ∧ m.grain_indicies i = id ∧
        onFace m.xpoints m.ypoints m.zpoints i)))

/-- A 3×3×3 grid whose centre voxel 13 is the interior grain `1`; grain `2` owns the other
26 voxels, all of them on the outer faces. -/
def containerCentre : DataContainer Unit where
  xpoints := 3
  ypoints := 3
  zpoints := 3
  grain_indicies := fun i => if i = 13 then 1 else 2
  m_Grains := [⟨0, ()⟩, ⟨0, ()⟩, ⟨1, ()⟩]

/-! ## Connectivity -/

/-- The voxel `v` is an in-domain 6-neighbour of the voxel `u`: some direction `j < 6` passes
the `good` test at `u` and leads to `v`. -/
def adjacent (X Y Z u v : Nat) : Prop :=
  ∃ j, j < 6 ∧ good X Y Z u j = 1 ∧ (neighpoint X Y u j).toNat = v

/-- The voxels that can be reached from the nucleus through in-domain 6-neighbour moves
between voxels that carry the target id `sel` in the grid `grid0`: the 6-connected set of
target voxels that contains the nucleus. -/
inductive Reach (X Y Z : Nat) (grid0 : Nat → Nat) (sel nucleus : Nat) : Nat → Prop
  | base : grid0 nucleus = sel → Reach X Y Z grid0 sel nucleus nucleus
  | step {u v : Nat} : Reach X Y Z grid0 sel nucleus u → adjacent X Y Z u v → grid0 v = sel →
      Reach X Y Z grid0 sel nucleus v

/-- What holds of the worklist and the markers all through the worklist loop: the nucleus is
on the list, every listed voxel is reachable, a negative marker belongs to a listed voxel, a
grow step affects only voxels that did not carry the target id and gives them the target id,
a shrink step affects only listed voxels, and a grow step leaves every target voxel alone. -/
structure MarkInv (X Y Z : Nat) (grid0 : Nat → Nat) (sel : Nat) (growth : Int) (nucleus : Nat)
    (st : StepState) : Prop where
  head : nucleus ∈ st.voxellist
  reach : ∀ v ∈ st.voxellist, Reach X Y Z grid0 sel nucleus v
  neg_mem : ∀ v, st.reassigned v < 0 → v ∈ st.voxellist
  aff_grow : growth = 1 → ∀ a ∈ st.affectedvoxellist,
    grid0 a ≠ sel ∧ st.grain_indicies a = sel
  aff_shrink : growth = -1 → ∀ a ∈ st.affectedvoxellist, a ∈ st.voxellist
  keep_sel : growth = 1 → ∀ v, grid0 v = sel → st.grain_indicies v = sel

/-- What the directions already visited have achieved; `Done u j` says that direction `j` of
the listed voxel `u` has been visited. A visited target neighbour is on the list; in a grow
step a visited neighbour carries the target id and every affected voxel is a neighbour of a
listed voxel; in a shrink step a voxel with a visited neighbour of another id has lost the
target id, and every affected voxel carries the id of its first neighbour of another id. -/
structure ScanInv (X Y Z : Nat) (grid0 : Nat → Nat) (sel : Nat) (growth : Int)
    (Done : Nat → Nat → Prop) (st : StepState) : Prop where
  closed : ∀ u j, Done u j → good X Y Z u j = 1 →
    grid0 (neighpoint X Y u j).toNat = sel → (neighpoint X Y u j).toNat ∈ st.voxellist
  grown : growth = 1 → ∀ u j, Done u j → good X Y Z u j = 1 →
    st.grain_indicies (neighpoint X Y u j).toNat = sel
  shrunk : growth = -1 → ∀ u j, Done u j → good X Y Z u j = 1 →
    grid0 (neighpoint X Y u j).toNat ≠ sel → st.grain_indicies u ≠ sel
  aff_nb : growth = 1 → ∀ a ∈ st.affectedvoxellist, ∃ u ∈ st.voxellist, adjacent X Y Z u a
  aff_first : growth = -1 → ∀ a ∈ st.affectedvoxellist, ∃ j, j < 6 ∧ good X Y Z a j = 1 ∧
    grid0 (neighpoint X Y a j).toNat ≠ sel ∧
    st.grain_indicies a = grid0 (neighpoint X Y a j).toNat ∧
    ∀ j2, j2 < j → good X Y Z a j2 = 1 → grid0 (neighpoint X Y a j2).toNat = sel

/-- The three invariants of the worklist loop together. -/
def Full (X Y Z : Nat) (Q : Nat → Prop) (grid0 : Nat → Nat) (sel : Nat) (growth : Int)
    (nucleus : Nat) (Done : Nat → Nat → Prop) (st : StepState) : Prop :=
  FloodInv (X * Y * Z) Q grid0 sel growth st ∧ MarkInv X Y Z grid0 sel growth nucleus st ∧
    ScanInv X Y Z grid0 sel growth Done st

/-- The directions visited when the worklist loop is at position `i`: all six directions of
the first `i` entries of the worklist. -/
def doneUpTo (i : Nat) (st : StepState) (u j : Nat) : Prop :=
  j < 6 ∧ ∃ p, p < i ∧ st.voxellist[p]? = some u

/-! ## Geometry of the six neighbours -/

theorem coords_of (X Y a b c : Nat) (ha : a < X) (hb : b < Y) :
    (a + X * (b + Y * c)) % X = a ∧ (a + X * (b + Y * c)) / X % Y = b ∧
      (a + X * (b + Y * c)) / (X * Y) = c := by
  have hX : 0 < X := by omega
  have h1 : (a + X * (b + Y * c)) / X = b + Y * c := by
    rw [Nat.add_mul_div_left _ _ hX, Nat.div_eq_of_lt ha, Nat.zero_add]
  refine ⟨?_, ?_, ?_⟩
  · rw [Nat.add_mul_mod_self_left, Nat.mod_eq_of_lt ha]
  · rw [h1, Nat.add_mul_mod_self_left, Nat.mod_eq_of_lt hb]
  · rw [← Nat.div_div_eq_div_mul, h1, Nat.add_mul_div_left _ _ (by omega : 0 < Y),
      Nat.div_eq_of_lt hb, Nat.zero_add]

theorem index_decomp (X Y index : Nat) :
    index = index % X + X * (index / X % Y + Y * (index / (X * Y))) := by
  rw [← Nat.div_div_eq_div_mul, Nat.mod_add_div (index / X) Y, Nat.mod_add_div index X]

theorem lt_total (X Y Z a b c : Nat) (ha : a < X) (hb : b < Y) (hc : c < Z) :
    a + X * (b + Y * c) < X * Y * Z := by
  have h1 : b + Y * c + 1 ≤ Y * Z := by
    have : Y * (c + 1) ≤ Y * Z := Nat.mul_le_mul_left _ hc
    rw [Nat.mul_add, Nat.mul_one] at this
    omega
  have h2 : X * (b + Y * c + 1) ≤ X * (Y * Z) := Nat.mul_le_mul_left _ h1
  rw [Nat.mul_add, Nat.mul_one] at h2
  rw [Nat.mul_assoc]
  omega

theorem z_lt (X Y Z index : Nat) (hi : index < X * Y * Z) : index / (X * Y) < Z := by
  rw [Nat.div_lt_iff_lt_mul]
  · rw [Nat.mul_comm Z]; exact hi
  · rcases Nat.eq_zero_or_pos (X * Y) with h | h
    · rw [h] at hi; simp at hi
    · exact h

theorem good_le (X Y Z index j : Nat) : good X Y Z index j = 0 ∨ good X Y Z index j = 1 := by
  unfold good
  simp only []
  split_ifs <;> simp

theorem good_iff (X Y Z index j : Nat) (hX : 1 ≤ X) (hY : 1 ≤ Y)
    (hi : index < X * Y * Z) (hj : j < 6) :
    good X Y Z index j = 0 ↔
      ¬ inDomain X Y Z ((index % X : Nat) : Int) ((index / X % Y : Nat) : Int)
        ((index / (X * Y) : Nat) : Int) (unitMove j) := by
  have hx := Nat.mod_lt index (by omega : X > 0)
  have hy := Nat.mod_lt (index / X) (by omega : Y > 0)
  have hz := z_lt X Y Z index hi
  unfold good inDomain
  generalize index % X = x at *
  generalize index / X % Y = y at *
  generalize index / (X * Y) = z at *
  interval_cases j <;> simp [unitMove] <;> omega

theorem neigh_coords (X Y Z index j : Nat) (hX : 1 ≤ X) (hY : 1 ≤ Y)
    (hi : index < X * Y * Z) (hj : j < 6) (hg : good X Y Z index j = 1) :
    ∃ a b c : Nat, a < X ∧ b < Y ∧ c < Z ∧
      neighpoint X Y index j = ((a + X * (b + Y * c) : Nat) : Int) ∧
      (a : Int) = ((index % X : Nat) : Int) + (unitMove j).1 ∧
      (b : Int) = ((index / X % Y : Nat) : Int) + (unitMove j).2.1 ∧
      (c : Int) = ((index / (X * Y) : Nat) : Int) + (unitMove j).2.2 := by
  have hx := Nat.mod_lt index (by omega : X > 0)
  have hy := Nat.mod_lt (index / X) (by omega : Y > 0)
  have hz := z_lt X Y Z index hi
  have hidx := index_decomp X Y index
  unfold good at hg
  unfold neighpoint
  generalize index % X = x at *
  generalize index / X % Y = y at *
  generalize index / (X * Y) = z at *
  subst hidx
  interval_cases j
  · rcases z with _ | c
    · simp at hg
    · exact ⟨x, y, c, hx, hy, by omega, by simp [neighpoints]; ring, by simp [unitMove],
        by simp [unitMove], by simp [unitMove]⟩
  · rcases y with _ | b
    · simp at hg
    · exact ⟨x, b, z, hx, by omega, hz, by simp [neighpoints]; ring, by simp [unitMove],
        by simp [unitMove], by simp [unitMove]⟩
  · rcases x with _ | a
    · simp at hg
    · exact ⟨a, y, z, by omega, hy, hz, by simp [neighpoints]; ring, by simp [unitMove],
        by simp [unitMove], by simp [unitMove]⟩
  · have : x + 1 < X := by
      simp at hg
      omega
    exact ⟨x + 1, y, z, this, hy, hz, by simp [neighpoints]; ring, by simp [unitMove],
        by simp [unitMove], by simp [unitMove]⟩
  · have : y + 1 < Y := by
      simp at hg
      omega
    exact ⟨x, y + 1, z, hx, this, hz, by simp [neighpoints]; ring, by simp [unitMove],
        by simp [unitMove], by simp [unitMove]⟩
  · have : z + 1 < Z := by
      simp at hg
      omega
    exact ⟨x, y, z + 1, hx, hy, this, by simp [neighpoints]; ring, by simp [unitMove],
        by simp [unitMove], by simp [unitMove]⟩

/-- A neighbour that passes the `good` test is a voxel of the grid. -/
theorem neigh_lt (X Y Z index j : Nat) (hX : 1 ≤ X) (hY : 1 ≤ Y)
    (hi : index < X * Y * Z) (hj : j < 6) (hg : good X Y Z index j = 1) :
    (neighpoint X Y index j).toNat < X * Y * Z := by
  obtain ⟨a, b, c, ha, hb, hc, hn, -⟩ := neigh_coords X Y Z index j hX hY hi hj hg
  rw [hn, Int.toNat_natCast]
  exact lt_total X Y Z a b c ha hb hc

/-- Claim C8. Hard-edged 6-neighbourhood. For dimensions `X, Y, Z ≥ 1`, a voxel `index` of the grid
with coordinates `x = index mod X`, `y = (index div X) mod Y`, `z = index div (X*Y)` and a
direction `j < 6`: `good` is `0` exactly when the unit move of direction `j` leaves the domain;
otherwise `good` is `1`, `neighpoint = index + neighpoints[j]` lies in `[0, X*Y*Z)` and its
coordinates are `(x, y, z)` moved by one cell along the single axis of `j`. -/
theorem good_iff_leaves_domain (X Y Z index j : Nat) (hX : 1 ≤ X) (hY : 1 ≤ Y) (_hZ : 1 ≤ Z)
    (hi : index < X * Y * Z) (hj : j < 6) :
    (good X Y Z index j = 0 ↔
      ¬ inDomain X Y Z ((index % X : Nat) : Int) ((index / X % Y : Nat) : Int)
        ((index / (X * Y) : Nat) : Int) (unitMove j)) ∧
    (good X Y Z index j ≠ 0 →
      good X Y Z index j = 1 ∧
      0 ≤ neighpoint X Y index j ∧ neighpoint X Y index j < ((X * Y * Z : Nat) : Int) ∧
      neighpoint X Y index j = (index : Int) + neighpoints X Y j ∧
      (((neighpoint X Y index j).toNat % X : Nat) : Int)
        = ((index % X : Nat) : Int) + (unitMove j).1 ∧
      (((neighpoint X Y index j).toNat / X % Y : Nat) : Int)
        = ((index / X % Y : Nat) : Int) + (unitMove j).2.1 ∧
      (((neighpoint X Y index j).toNat / (X * Y) : Nat) : Int)
        = ((index / (X * Y) : Nat) : Int) + (unitMove j).2.2) := by
  refine ⟨good_iff X Y Z index j hX hY hi hj, fun hne => ?_⟩
  have hg : good X Y Z index j = 1 := by
    rcases good_le X Y Z index j with h | h
    · exact absurd h hne
    · exact h
  obtain ⟨a, b, c, ha, hb, hc, hn, h1, h2, h3⟩ := neigh_coords X Y Z index j hX hY hi hj hg
  obtain ⟨c1, c2, c3⟩ := coords_of X Y a b c ha hb
  refine ⟨hg, ?_, ?_, rfl, ?_, ?_, ?_⟩
  · rw [hn]; exact Int.natCast_nonneg _
  · rw [hn]; exact_mod_cast lt_total X Y Z a b c ha hb hc
  · rw [hn, Int.toNat_natCast, c1]; exact h1
  · rw [hn, Int.toNat_natCast, c2]; exact h2
  · rw [hn, Int.toNat_natCast, c3]; exact h3

theorem good_iff_leaves_domain_witness :
    (good 4 4 4 21 0 = 0 ↔
      ¬ inDomain 4 4 4 ((21 % 4 : Nat) : Int) ((21 / 4 % 4 : Nat) : Int)
        ((21 / (4 * 4) : Nat) : Int) (unitMove 0)) ∧
    (good 4 4 4 21 0 ≠ 0 →
      good 4 4 4 21 0 = 1 ∧
      0 ≤ neighpoint 4 4 21 0 ∧ neighpoint 4 4 21 0 < ((4 * 4 * 4 : Nat) : Int) ∧
      neighpoint 4 4 21 0 = (21 : Int) + neighpoints 4 4 0 ∧
      (((neighpoint 4 4 21 0).toNat % 4 : Nat) : Int)
        = ((21 % 4 : Nat) : Int) + (unitMove 0).1 ∧
      (((neighpoint 4 4 21 0).toNat / 4 % 4 : Nat) : Int)
        = ((21 / 4 % 4 : Nat) : Int) + (unitMove 0).2.1 ∧
      (((neighpoint 4 4 21 0).toNat / (4 * 4) : Nat) : Int)
        = ((21 / (4 * 4) : Nat) : Int) + (unitMove 0).2.2) :=
  good_iff_leaves_domain 4 4 4 21 0 (by decide) (by decide) (by decide) (by decide) (by decide)

/-! ## The worklist loop keeps its invariant -/

theorem nodup_snoc {l : List Nat} {a : Nat} (h : l.Nodup) (ha : a ∉ l) : (l ++ [a]).Nodup := by
  refine List.Nodup.append h (List.nodup_singleton a) ?_
  intro x hx hx2
  rw [List.mem_singleton] at hx2
  subst hx2
  exact ha hx

theorem enqueue_inv {N : Nat} {Q : Nat → Prop} {grid0 : Nat → Nat} {sel : Nat} {growth : Int}
    {st : StepState} (np : Nat) (h : FloodInv N Q grid0 sel growth st) (hnp : np < N) :
    FloodInv N Q grid0 sel growth (enqueue sel np st) := by
  unfold enqueue
  split_ifs with hc
  · obtain ⟨-, hr⟩ := hc
    refine ⟨?_, h.aff_lt, h.nodup, ?_, ?_, ?_, h.range, h.shrunk, ?_⟩
    · intro v hv
      simp only [List.mem_append, List.mem_singleton] at hv
      rcases hv with hv | hv
      · exact h.vox_lt v hv
      · omega
    · intro i
      rcases eq_or_ne i np with rfl | hi
      · simp only [Function.update_same]
        constructor
        · intro hm
          have := (h.mem_iff i).1 hm
          omega
        · intro hm
          omega
      · simp only [Function.update_noteq hi]
        exact h.mem_iff i
    · intro i
      rcases eq_or_ne i np with rfl | hi
      · simp only [Function.update_same]
        intro hm
        omega
      · simp only [Function.update_noteq hi]
        exact h.orig i
    · intro i
      rcases eq_or_ne i np with rfl | hi
      · intro _
        exact h.keep i (by omega)
      · simp only [Function.update_noteq hi]
        exact h.keep i
    · intro i hi
      have : i ≠ np := by omega
      simp only [Function.update_noteq this]
      exact h.outside i hi
  · exact h

theorem grow_inv {N : Nat} {Q : Nat → Prop} {grid0 : Nat → Nat} {sel : Nat} {growth : Int}
    {st : StepState} (index np : Nat) (h : FloodInv N Q grid0 sel growth st)
    (hindex : index < N) (hnp : np < N) :
    FloodInv N Q grid0 sel growth (grow growth index np st) := by
  unfold grow
  split_ifs with hc
  · obtain ⟨hg, hr⟩ := hc
    have hnotin : np ∉ st.affectedvoxellist := fun hm => by
      have := (h.mem_iff np).1 hm
      omega
    have hpos : 1 ≤ st.grain_indicies np := (h.range np hnp).1
    refine ⟨h.vox_lt, ?_, ?_, ?_, ?_, ?_, ?_, ?_, ?_⟩
    · intro a ha
      simp only [List.mem_append, List.mem_singleton] at ha
      rcases ha with ha | ha
      · exact h.aff_lt a ha
      · omega
    · exact nodup_snoc h.nodup hnotin
    · intro i
      rcases eq_or_ne i np with rfl | hi
      · simp only [Function.update_same, List.mem_append, List.mem_singleton, or_true, true_iff]
        omega
      · simp only [Function.update_noteq hi, List.mem_append, List.mem_singleton, hi, or_false]
        exact h.mem_iff i
    · intro i
      rcases eq_or_ne i np with rfl | hi
      · simp only [Function.update_same]
        intro _
        rw [h.keep i hr]
      · simp only [Function.update_noteq hi]
        exact h.orig i
    · intro i
      rcases eq_or_ne i np with rfl | hi
      · simp only [Function.update_same]
        intro hm
        omega
      · simp only [Function.update_noteq hi]
        exact h.keep i
    · intro i hi
      rcases eq_or_ne i np with rfl | hne
      · simp only [Function.update_same]
        exact h.range index hindex
      · simp only [Function.update_noteq hne]
        exact h.range i hi
    · intro hm
      omega
    · intro i hi
      have : i ≠ np := by omega
      simp only [Function.update_noteq this]
      exact h.outside i hi
  · exact h

theorem shrink_inv {N : Nat} {Q : Nat → Prop} {grid0 : Nat → Nat} {sel : Nat} {growth : Int}
    {st : StepState} (index np : Nat) (h : FloodInv N Q grid0 sel growth st)
    (hindex : index < N) (hnp : np < N) (hsel : st.grain_indicies index = sel)
    (hne : st.grain_indicies np ≠ sel) :
    FloodInv N Q grid0 sel growth (shrink growth index np st) := by
  unfold shrink
  split_ifs with hc
  · obtain ⟨hg, hr⟩ := hc
    have hnotin : index ∉ st.affectedvoxellist := fun hm => h.shrunk hg index hm hsel
    have hpos : 1 ≤ st.grain_indicies index := (h.range index hindex).1
    have hle : st.reassigned index ≤ 0 := by
      by_contra hcon
      exact hnotin ((h.mem_iff index).2 (by omega))
    refine ⟨h.vox_lt, ?_, ?_, ?_, ?_, ?_, ?_, ?_, ?_⟩
    · intro a ha
      simp only [List.mem_append, List.mem_singleton] at ha
      rcases ha with ha | ha
      · exact h.aff_lt a ha
      · omega
    · exact nodup_snoc h.nodup hnotin
    · intro i
      rcases eq_or_ne i index with rfl | hi
      · simp only [Function.update_same, List.mem_append, List.mem_singleton, or_true, true_iff]
        omega
      · simp only [Function.update_noteq hi, List.mem_append, List.mem_singleton, hi, or_false]
        exact h.mem_iff i
    · intro i
      rcases eq_or_ne i index with rfl | hi
      · simp only [Function.update_same]
        intro _
        rw [h.keep i hle]
      · simp only [Function.update_noteq hi]
        exact h.orig i
    · intro i
      rcases eq_or_ne i index with rfl | hi
      · simp only [Function.update_same]
        intro hm
        omega
      · simp only [Function.update_noteq hi]
        exact h.keep i
    · intro i hi
      rcases eq_or_ne i index with rfl | hne2
      · simp only [Function.update_same]
        exact h.range np hnp
      · simp only [Function.update_noteq hne2]
        exact h.range i hi
    · intro _ a ha
      simp only [List.mem_append, List.mem_singleton] at ha
      rcases eq_or_ne a index with rfl | hne2
      · simp only [Function.update_same]
        exact hne
      · simp only [Function.update_noteq hne2]
        rcases ha with ha | ha
        · exact h.shrunk hg a ha
        · exact absurd ha hne2
    · intro i hi
      have : i ≠ index := by omega
      simp only [Function.update_noteq this]
      exact h.outside i hi
  · exact h

theorem zeros_update_le (N : Nat) (r : Nat → Int) (i : Nat) (v : Int) (hv : v ≠ 0) :
    zeros N (Function.update r i v) ≤ zeros N r := by
  unfold zeros
  apply Finset.card_le_card
  intro x hx
  simp only [Finset.mem_filter, Finset.mem_range] at hx ⊢
  refine ⟨hx.1, ?_⟩
  rcases eq_or_ne x i with rfl | hne
  · rw [Function.update_same] at hx
    exact absurd hx.2 hv
  · rw [Function.update_noteq hne] at hx
    exact hx.2

theorem zeros_update_lt (N : Nat) (r : Nat → Int) (i : Nat) (v : Int) (hv : v ≠ 0)
    (hi : i < N) (hr : r i = 0) : zeros N (Function.update r i v) + 1 ≤ zeros N r := by
  unfold zeros
  have hsub : ((Finset.range N).filter fun x => Function.update r i v x = 0) ⊆
      ((Finset.range N).filter fun x => r x = 0).erase i := by
    intro x hx
    simp only [Finset.mem_filter, Finset.mem_range, Finset.mem_erase] at hx ⊢
    rcases eq_or_ne x i with rfl | hne
    · rw [Function.update_same] at hx
      exact absurd hx.2 hv
    · rw [Function.update_noteq hne] at hx
      exact ⟨hne, hx.1, hx.2⟩
  have hmem : i ∈ (Finset.range N).filter fun x => r x = 0 := by
    simp only [Finset.mem_filter, Finset.mem_range]
    exact ⟨hi, hr⟩
  have h1 := Finset.card_le_card hsub
  rw [Finset.card_erase_of_mem hmem] at h1
  have h2 : 0 < ((Finset.range N).filter fun x => r x = 0).card := Finset.card_pos.2 ⟨i, hmem⟩
  omega

theorem enqueue_bounded {N : Nat} {Q : Nat → Prop} {grid0 : Nat → Nat} {sel : Nat}
    {growth : Int} {M L : Nat} {st : StepState} (np : Nat)
    (h : Bounded N Q grid0 sel growth M L st) (hnp : np < N) :
    Bounded N Q grid0 sel growth M L (enqueue sel np st) := by
  refine ⟨enqueue_inv np h.1 hnp, ?_⟩
  obtain ⟨-, hM, hL⟩ := h
  unfold enqueue
  split_ifs with hc
  · have := zeros_update_lt N st.reassigned np (-1) (by decide) hnp hc.2
    simp only [List.length_append, List.length_singleton]
    omega
  · exact ⟨hM, hL⟩

theorem grow_bounded {N : Nat} {Q : Nat → Prop} {grid0 : Nat → Nat} {sel : Nat}
    {growth : Int} {M L : Nat} {st : StepState} (index np : Nat)
    (h : Bounded N Q grid0 sel growth M L st) (hindex : index < N) (hnp : np < N) :
    Bounded N Q grid0 sel growth M L (grow growth index np st) := by
  refine ⟨grow_inv index np h.1 hindex hnp, ?_⟩
  obtain ⟨hinv, hM, hL⟩ := h
  unfold grow
  split_ifs with hc
  · have hpos : 1 ≤ st.grain_indicies np := (hinv.range np hnp).1
    have := zeros_update_le N st.reassigned np (st.grain_indicies np : Int) (by omega)
    simp only
    omega
  · exact ⟨hM, hL⟩

theorem shrink_bounded {N : Nat} {Q : Nat → Prop} {grid0 : Nat → Nat} {sel : Nat}
    {growth : Int} {M L : Nat} {st : StepState} (index np : Nat)
    (h : Bounded N Q grid0 sel growth M L st) (hindex : index < N) (hnp : np < N)
    (hsel : st.grain_indicies index = sel) (hne : st.grain_indicies np ≠ sel) :
    Bounded N Q grid0 sel growth M L (shrink growth index np st) := by
  refine ⟨shrink_inv index np h.1 hindex hnp hsel hne, ?_⟩
  obtain ⟨hinv, hM, hL⟩ := h
  unfold shrink
  split_ifs with hc
  · have hpos : 1 ≤ st.grain_indicies index := (hinv.range index hindex).1
    have := zeros_update_le N st.reassigned index (st.grain_indicies index : Int) (by omega)
    simp only
    omega
  · exact ⟨hM, hL⟩

theorem grow_of_ne {growth : Int} (index np : Nat) (st : StepState) (h : growth ≠ 1) :
    grow growth index np st = st := by
  unfold grow
  rw [if_neg]
  exact fun hc => h hc.1

theorem visit_bounded {X Y Z : Nat} {Q : Nat → Prop} {grid0 : Nat → Nat} {sel : Nat}
    {growth : Int} {M L : Nat} {st : StepState} (index j : Nat) (hX : 1 ≤ X) (hY : 1 ≤ Y)
    (h : Bounded (X * Y * Z) Q grid0 sel growth M L st) (hindex : index < X * Y * Z)
    (hj : j < 6) :
    Bounded (X * Y * Z) Q grid0 sel growth M L (visit X Y Z sel growth index st j) := by
  unfold visit
  by_cases hg : good X Y Z index j = 1
  · rw [if_pos hg]
    have hnp := neigh_lt X Y Z index j hX hY hindex hj hg
    have h1 := enqueue_bounded (neighpoint X Y index j).toNat h hnp
    simp only []
    split_ifs with hc
    · by_cases hgr : growth = 1
      · have hs : shrink growth index (neighpoint X Y index j).toNat
            (grow growth index (neighpoint X Y index j).toNat
              (enqueue sel (neighpoint X Y index j).toNat st)) =
            grow growth index (neighpoint X Y index j).toNat
              (enqueue sel (neighpoint X Y index j).toNat st) := by
          unfold shrink
          rw [if_neg]
          intro hcc
          omega
        rw [hs]
        exact grow_bounded index _ h1 hindex hnp
      · rw [grow_of_ne _ _ _ hgr]
        exact shrink_bounded index _ h1 hindex hnp hc.2 hc.1
    · exact h1
  · rw [if_neg hg]
    exact h

theorem processVoxel_bounded {X Y Z : Nat} {Q : Nat → Prop} {grid0 : Nat → Nat} {sel : Nat}
    {growth : Int} {M L : Nat} {st : StepState} (index : Nat) (hX : 1 ≤ X) (hY : 1 ≤ Y)
    (h : Bounded (X * Y * Z) Q grid0 sel growth M L st) (hindex : index < X * Y * Z) :
    Bounded (X * Y * Z) Q grid0 sel growth M L (processVoxel X Y Z sel growth index st) := by
  have hr : List.range 6 = [0, 1, 2, 3, 4, 5] := by decide
  unfold processVoxel
  rw [hr]
  simp only [List.foldl]
  have h0 := visit_bounded index 0 hX hY h hindex (by decide)
  have h1 := visit_bounded index 1 hX hY h0 hindex (by decide)
  have h2 := visit_bounded index 2 hX hY h1 hindex (by decide)
  have h3 := visit_bounded index 3 hX hY h2 hindex (by decide)
  have h4 := visit_bounded index 4 hX hY h3 hindex (by decide)
  exact visit_bounded index 5 hX hY h4 hindex (by decide)

/-- The worklist loop ends, and its final state satisfies the invariant, as soon as the fuel
exceeds the number of clear markers plus the length of the worklist, less the position. -/
theorem flood_bounded {X Y Z : Nat} {Q : Nat → Prop} {grid0 : Nat → Nat} {sel : Nat}
    {growth : Int} (hX : 1 ≤ X) (hY : 1 ≤ Y) :
    ∀ (fuel i : Nat) (st : StepState), FloodInv (X * Y * Z) Q grid0 sel growth st →
      i ≤ st.voxellist.length →
      zeros (X * Y * Z) st.reassigned + st.voxellist.length < fuel + i →
      ∃ st2, flood X Y Z sel growth fuel i st = some st2 ∧
        FloodInv (X * Y * Z) Q grid0 sel growth st2 := by
  intro fuel
  induction fuel with
  | zero =>
    intro i st _ hi hm
    omega
  | succ fuel ih =>
    intro i st hinv hi hm
    unfold flood
    rcases hget : st.voxellist[i]? with _ | index
    · exact ⟨st, rfl, hinv⟩
    · have hlt : i < st.voxellist.length := by
        by_contra hcon
        rw [List.getElem?_eq_none (by omega)] at hget
        cases hget
      have hmem : index ∈ st.voxellist := List.getElem?_mem hget
      have hb : Bounded (X * Y * Z) Q grid0 sel growth
          (zeros (X * Y * Z) st.reassigned + st.voxellist.length) st.voxellist.length st :=
        ⟨hinv, le_refl _, le_refl _⟩
      obtain ⟨hinv2, hM2, hL2⟩ := processVoxel_bounded index hX hY hb (hinv.vox_lt index hmem)
      exact ih (i + 1) _ hinv2 (by omega) (by omega)

theorem startState_inv (N : Nat) (Q : Nat → Prop) (grid0 : Nat → Nat) (sel : Nat)
    (growth : Int) (nucleus : Nat) (hn : nucleus < N)
    (hids : ∀ i, i < N → 1 ≤ grid0 i ∧ Q (grid0 i)) :
    FloodInv N Q grid0 sel growth (startState grid0 nucleus) := by
  refine ⟨?_, ?_, List.nodup_nil, ?_, ?_, ?_, hids, ?_, ?_⟩
  · intro v hv
    simp only [startState, List.mem_singleton] at hv
    omega
  · intro a ha
    simp [startState] at ha
  · intro i
    simp [startState]
  · intro i hi
    simp [startState] at hi
  · intro i _
    rfl
  · intro _ a ha
    simp [startState] at ha
  · intro i _
    rfl

theorem zeros_le (N : Nat) (r : Nat → Int) : zeros N r ≤ N := by
  unfold zeros
  calc ((Finset.range N).filter fun i => r i = 0).card ≤ (Finset.range N).card :=
        Finset.card_filter_le _ _
    _ = N := Finset.card_range N

/-- The worklist loop of a step ends within `totalpoints + 2` units of fuel, and the invariant
holds of the state it leaves. -/
theorem flood_start {X Y Z : Nat} (Q : Nat → Prop) (grid0 : Nat → Nat) (sel : Nat)
    (growth : Int) (fuel nucleus : Nat) (hX : 1 ≤ X) (hY : 1 ≤ Y)
    (hn : nucleus < X * Y * Z) (hids : ∀ i, i < X * Y * Z → 1 ≤ grid0 i ∧ Q (grid0 i))
    (hfuel : X * Y * Z + 2 ≤ fuel) :
    ∃ st, flood X Y Z sel growth fuel 0 (startState grid0 nucleus) = some st ∧
      FloodInv (X * Y * Z) Q grid0 sel growth st := by
  apply flood_bounded hX hY fuel 0 _ (startState_inv _ Q grid0 sel growth nucleus hn hids)
  · exact Nat.zero_le _
  · have := zeros_le (X * Y * Z) (startState grid0 nucleus).reassigned
    simp only [startState, List.length_singleton] at this ⊢
    omega

/-! ## Rounding of the product `r * size` -/

theorem bitLength_spec (fuel n : Nat) (hn : 0 < n) (hf : n ≤ fuel) :
    ∃ b, bitLength fuel n = b + 1 ∧ 2 ^ b ≤ n ∧ n < 2 ^ (b + 1) := by
  induction fuel generalizing n with
  | zero => omega
  | succ fuel ih =>
    have hu : bitLength (fuel + 1) n = bitLength fuel (n / 2) + 1 := by
      rw [bitLength, if_neg (by omega)]
    by_cases h2 : n / 2 = 0
    · refine ⟨0, ?_, ?_, ?_⟩
      · rw [hu, h2]
        cases fuel <;> simp [bitLength]
      · simpa using hn
      · have : n < 2 := by omega
        simpa using this
    · obtain ⟨b, hb, hlo, hhi⟩ := ih (n / 2) (by omega) (by omega)
      refine ⟨b + 1, by rw [hu, hb], ?_, ?_⟩
      · rw [pow_succ]
        omega
      · rw [pow_succ] at hhi ⊢
        omega

/-- The rounded product is one of the two multiples of `2^s` around `M`, and the upper one
only from the middle on. -/
theorem roundDouble_cases (M : Nat) :
    roundDouble M = M / 2 ^ (bitLength M M - 53) * 2 ^ (bitLength M M - 53) ∨
    (roundDouble M = (M / 2 ^ (bitLength M M - 53) + 1) * 2 ^ (bitLength M M - 53) ∧
      2 ^ (bitLength M M - 53) ≤ 2 * (M % 2 ^ (bitLength M M - 53))) := by
  unfold roundDouble
  simp only []
  split_ifs with h
  · right
    refine ⟨rfl, ?_⟩
    rcases h with h | h
    · omega
    · omega
  · left
    rfl

/-- The shift of a product `k * size` with `k < 2^53` and at most `2^53` slots. -/
theorem shift_spec (size M : Nat) (hsz : 1 ≤ size) (hN : size ≤ 2 ^ 53)
    (hM : M < 2 ^ 53 * size) :
    bitLength M M - 53 ≤ 53 ∧ 2 ^ (bitLength M M - 53) < 2 * size := by
  rcases Nat.eq_zero_or_pos M with h0 | hpos
  · subst h0
    simp [bitLength]
    omega
  · obtain ⟨b, hb, hlo, -⟩ := bitLength_spec M M hpos le_rfl
    rw [hb]
    have hlt : 2 ^ b < 2 ^ 53 * size := lt_of_le_of_lt hlo hM
    constructor
    · have h106 : 2 ^ b < 2 ^ 106 := by
        calc 2 ^ b < 2 ^ 53 * size := hlt
          _ ≤ 2 ^ 53 * 2 ^ 53 := Nat.mul_le_mul_left _ hN
          _ = 2 ^ 106 := by norm_num
      have := (Nat.pow_lt_pow_iff_right (by norm_num : 1 < 2)).1 h106
      omega
    · by_cases hb52 : 52 ≤ b
      · have e : b + 1 - 53 = b - 52 := by omega
        rw [e]
        have e2 : 2 ^ b = 2 ^ (b - 52) * 2 ^ 52 := by
          rw [← pow_add]
          congr 1
          omega
        rw [e2] at hlt
        generalize 2 ^ (b - 52) = p at hlt ⊢
        omega
      · have e : b + 1 - 53 = 0 := by omega
        rw [e]
        simp
        omega

/-- Rounding does not go below a multiple of `2^53` that the product has reached. -/
theorem roundDouble_ge (size M c : Nat) (hsz : 1 ≤ size) (hN : size ≤ 2 ^ 53)
    (hM : M < 2 ^ 53 * size) (h : c * 2 ^ 53 ≤ M) : c * 2 ^ 53 ≤ roundDouble M := by
  obtain ⟨hs, -⟩ := shift_spec size M hsz hN hM
  have e : c * 2 ^ 53 = c * 2 ^ (53 - (bitLength M M - 53)) * 2 ^ (bitLength M M - 53) := by
    rw [Nat.mul_assoc, ← pow_add]
    congr 2
    omega
  have hq : c * 2 ^ (53 - (bitLength M M - 53)) ≤ M / 2 ^ (bitLength M M - 53) := by
    rw [Nat.le_div_iff_mul_le (by positivity), ← e]
    exact h
  have hle : c * 2 ^ 53 ≤ M / 2 ^ (bitLength M M - 53) * 2 ^ (bitLength M M - 53) := by
    rw [e]
    exact Nat.mul_le_mul_right _ hq
  rcases roundDouble_cases M with hr | ⟨hr, -⟩
  · rw [hr]
    exact hle
  · rw [hr]
    exact le_trans hle (Nat.mul_le_mul_right _ (Nat.le_succ _))

/-- Rounding stays below a multiple of `2^53` that the next draw does not pass. -/
theorem roundDouble_lt (size M c : Nat) (hsz : 1 ≤ size) (hN : size ≤ 2 ^ 53)
    (hM : M < 2 ^ 53 * size) (h : M + size ≤ c * 2 ^ 53) : roundDouble M < c * 2 ^ 53 := by
  obtain ⟨hs, hp⟩ := shift_spec size M hsz hN hM
  have e : c * 2 ^ 53 = c * 2 ^ (53 - (bitLength M M - 53)) * 2 ^ (bitLength M M - 53) := by
    rw [Nat.mul_assoc, ← pow_add]
    congr 2
    omega
  have hdm := Nat.div_add_mod M (2 ^ (bitLength M M - 53))
  have hpos : 0 < 2 ^ (bitLength M M - 53) := by positivity
  rcases roundDouble_cases M with hr | ⟨hr, hhalf⟩
  · rw [hr]
    have := Nat.div_mul_le_self M (2 ^ (bitLength M M - 53))
    omega
  · rw [hr, e]
    apply Nat.mul_lt_mul_of_pos_right _ hpos
    rw [e] at h
    generalize c * 2 ^ (53 - (bitLength M M - 53)) = c2 at h ⊢
    generalize M / 2 ^ (bitLength M M - 53) = q at hdm ⊢
    generalize M % 2 ^ (bitLength M M - 53) = r at hdm hhalf
    generalize 2 ^ (bitLength M M - 53) = p at *
    by_contra hc
    have hc2 : c2 ≤ q + 1 := by omega
    have := Nat.mul_le_mul_right p hc2
    rw [Nat.add_mul, Nat.one_mul, Nat.mul_comm q p] at this
    omega

/-- The product of a draw `k < 2^53` truncates below `size`: the clamp of line 151 is idle. -/
theorem candidate_of_lt (size k : Nat) (hsize : 2 ≤ size) (hN : size ≤ 2 ^ 53)
    (hk : k < 2 ^ 53) :
    candidate size k = if roundDouble (k * size) / 2 ^ 53 = 0 then 1
      else roundDouble (k * size) / 2 ^ 53 := by
  have hM : k * size < 2 ^ 53 * size := Nat.mul_lt_mul_of_pos_right hk (by omega)
  have hlt := roundDouble_lt size (k * size) size (by omega) hN hM
    (by have : (k + 1) * size ≤ 2 ^ 53 * size := Nat.mul_le_mul_right _ hk
        rw [Nat.add_mul, Nat.one_mul] at this
        rw [Nat.mul_comm size]
        exact this)
  have h1 : roundDouble (k * size) / 2 ^ 53 < size := by
    rw [Nat.div_lt_iff_lt_mul (by positivity)]
    exact hlt
  unfold candidate
  simp only [ge_iff_le, if_neg (not_le.2 h1)]

/-- A draw whose product has reached `c * 2^53` gives a candidate of at least `c`. -/
theorem candidate_ge (size k c : Nat) (hsize : 2 ≤ size) (hN : size ≤ 2 ^ 53)
    (hk : k < 2 ^ 53) (h : c * 2 ^ 53 ≤ k * size) : c ≤ candidate size k := by
  have hM : k * size < 2 ^ 53 * size := Nat.mul_lt_mul_of_pos_right hk (by omega)
  have h1 := roundDouble_ge size (k * size) c (by omega) hN hM h
  have h2 := (Nat.le_div_iff_mul_le (by positivity : 0 < 2 ^ 53)).2 h1
  rw [candidate_of_lt size k hsize hN hk]
  split_ifs <;> omega

/-- A draw whose successor has not passed `(c + 1) * 2^53` gives a candidate of at most `c`,
for `c ≥ 1`. -/
theorem candidate_le (size k c : Nat) (hsize : 2 ≤ size) (hN : size ≤ 2 ^ 53)
    (hk : k < 2 ^ 53) (hc : 1 ≤ c) (h : k * size + size ≤ (c + 1) * 2 ^ 53) :
    candidate size k ≤ c := by
  have hM : k * size < 2 ^ 53 * size := Nat.mul_lt_mul_of_pos_right hk (by omega)
  have h1 := roundDouble_lt size (k * size) (c + 1) (by omega) hN hM h
  have h2 := (Nat.div_lt_iff_lt_mul (by positivity : 0 < 2 ^ 53)).2 h1
  rw [candidate_of_lt size k hsize hN hk]
  split_ifs <;> omega

/-! ## Selection and nucleus search -/

theorem candidate_pos (size k : Nat) : 1 ≤ candidate size k := by
  unfold candidate
  simp only []
  split_ifs <;> omega

theorem candidate_lt (size k : Nat) (h : 2 ≤ size) : candidate size k < size := by
  unfold candidate
  simp only []
  split_ifs <;> omega

/-- A grain returned by the selection loop is a record of the table, from slot 1 on, whose
boundary flag is not set. -/
theorem selectGrain_some {D : Type} (m_Grains : List (Grain D)) (rg : Nat → Nat) :
    ∀ (fuel k s k2 : Nat), selectGrain m_Grains rg fuel k = some (s, k2) →
      1 ≤ s ∧ ∃ g, m_Grains[s]? = some g ∧ ¬ (g.surfacegrain > 0) := by
  intro fuel
  induction fuel with
  | zero =>
    intro k s k2 h
    simp [selectGrain] at h
  | succ fuel ih =>
    intro k s k2 h
    unfold selectGrain at h
    simp only [] at h
    rcases hget : m_Grains[candidate m_Grains.length (rg k)]? with _ | g
    · rw [hget] at h
      cases h
    · rw [hget] at h
      simp only [] at h
      split_ifs at h with hf
      · exact ih (k + 1) s k2 h
      · simp only [Option.some.injEq, Prod.mk.injEq] at h
        obtain ⟨rfl, -⟩ := h
        exact ⟨candidate_pos _ _, g, hget, hf⟩

/-- When every record from slot 1 on has its boundary flag set, the selection loop rejects
every draw: no amount of fuel yields a grain. -/
theorem selectGrain_all_flagged {D : Type} (m_Grains : List (Grain D)) (rg : Nat → Nat)
    (hall : ∀ (i : Nat) (g : Grain D), 1 ≤ i → m_Grains[i]? = some g → 0 < g.surfacegrain) :
    ∀ (fuel k : Nat), selectGrain m_Grains rg fuel k = none := by
  intro fuel k
  rcases h : selectGrain m_Grains rg fuel k with _ | ⟨s, k2⟩
  · rfl
  · obtain ⟨hs, g, hg, hflag⟩ := selectGrain_some m_Grains rg fuel k s k2 h
    exact absurd (hall s g hs hg) hflag

/-- What the nucleus search returns: a voxel that carries the returned grain id, which is not
below the id the search started from. -/
theorem findNucleus_some (grid : Nat → Nat) (N : Nat) :
    ∀ (fuel s0 n0 s n : Nat), findNucleus grid N fuel s0 n0 = some (s, n) → n0 < N →
      grid n = s ∧ s0 ≤ s ∧ n < N := by
  intro fuel
  induction fuel with
  | zero =>
    intro s0 n0 s n h
    simp [findNucleus] at h
  | succ fuel ih =>
    intro s0 n0 s n h hn
    unfold findNucleus at h
    split_ifs at h with h1 h2
    · obtain ⟨a, b, c⟩ := ih (s0 + 1) 0 s n h (by omega)
      exact ⟨a, by omega, c⟩
    · exact ih s0 (n0 + 1) s n h (by omega)
    · simp only [Option.some.injEq, Prod.mk.injEq] at h
      obtain ⟨rfl, rfl⟩ := h
      exact ⟨by simpa using h1, le_refl _, hn⟩

/-- The nucleus search ends when some voxel carries an id that the search has not passed. -/
theorem findNucleus_terminates (grid : Nat → Nat) (N i : Nat) (hi : i < N) :
    ∀ (fuel s0 n0 : Nat), n0 < N → (s0 < grid i ∨ (s0 = grid i ∧ n0 ≤ i)) →
      (grid i - s0) * N + (N - n0) < fuel →
      ∃ s n, findNucleus grid N fuel s0 n0 = some (s, n) := by
  intro fuel
  induction fuel with
  | zero =>
    intro s0 n0 _ _ h
    omega
  | succ fuel ih =>
    intro s0 n0 hn hw hf
    unfold findNucleus
    split_ifs with h1 h2
    · have hlt : s0 < grid i := by
        rcases hw with hw | ⟨hw1, hw2⟩
        · exact hw
        · have : n0 = i := by omega
          subst this
          exact absurd hw1.symm h1
      obtain ⟨d, hd⟩ : ∃ d, grid i - s0 = d + 1 := ⟨grid i - s0 - 1, by omega⟩
      have hd2 : grid i - (s0 + 1) = d := by omega
      apply ih (s0 + 1) 0 (by omega) (by omega)
      rw [hd2]
      rw [hd, Nat.succ_mul] at hf
      omega
    · apply ih s0 (n0 + 1) (by omega)
      · rcases hw with hw | ⟨hw1, hw2⟩
        · exact Or.inl hw
        · refine Or.inr ⟨hw1, ?_⟩
          rcases Nat.lt_or_ge n0 i with h3 | h3
          · exact h3
          · have : n0 = i := by omega
            subst this
            exact absurd hw1.symm h1
      · omega
    · exact ⟨s0, n0, rfl⟩

/-- The nucleus search of a step ends within `size * totalpoints + 1` units of fuel when some
voxel carries an id not below the selected one. -/
theorem findNucleus_start (grid : Nat → Nat) (N G fuel s0 : Nat) (hs0 : 1 ≤ s0)
    (hex : ∃ i, i < N ∧ s0 ≤ grid i) (hids : ∀ i, i < N → grid i < G)
    (hfuel : G * N + 1 ≤ fuel) :
    ∃ s n, findNucleus grid N fuel s0 0 = some (s, n) := by
  obtain ⟨i, hi, hle⟩ := hex
  apply findNucleus_terminates grid N i hi fuel s0 0 (by omega)
  · rcases Nat.lt_or_ge s0 (grid i) with h | h
    · exact Or.inl h
    · exact Or.inr ⟨by omega, Nat.zero_le _⟩
  · have h1 : grid i - s0 + 1 ≤ G := by
      have := hids i hi
      omega
    have h2 : (grid i - s0 + 1) * N ≤ G * N := Nat.mul_le_mul_right N h1
    rw [Nat.succ_mul] at h2
    omega

/-! ## The erase loop -/

theorem eraseLoop_terminates {D : Type} (gsizes : Nat → Int) :
    ∀ (fuel i : Nat) (l : List (Grain D)), l.length < fuel + i → 0 < fuel →
      ∃ l2, eraseLoop gsizes fuel i l = some l2 := by
  intro fuel
  induction fuel with
  | zero =>
    intro i l _ h
    omega
  | succ fuel ih =>
    intro i l h _
    unfold eraseLoop
    split_ifs with h1 h2
    · have := List.length_eraseIdx_le l i
      apply ih
      · omega
      · omega
    · apply ih
      · omega
      · omega
    · exact ⟨l, rfl⟩

/-! ## The size table -/

theorem sumSizes_bump (G : Nat) (g : Nat → Int) (id : Nat) (c : Int) (h1 : 1 ≤ id)
    (h2 : id < G) : sumSizes G (Function.update g id (g id + c)) = sumSizes G g + c := by
  unfold sumSizes
  have hmem : id ∈ Finset.Ico 1 G := Finset.mem_Ico.2 ⟨h1, h2⟩
  rw [Finset.sum_update_of_mem hmem, ← Finset.add_sum_erase _ g hmem, Finset.sdiff_singleton_eq_erase]
  ring

theorem sumSizes_init (old : Nat → Int) (G : Nat) : sumSizes G (initGsizes old G) = 0 := by
  unfold sumSizes initGsizes
  apply Finset.sum_eq_zero
  intro i hi
  rw [Finset.mem_Ico] at hi
  rw [if_pos hi]

theorem countGsizes_succ (grid : Nat → Nat) (N : Nat) (g : Nat → Int) :
    countGsizes grid (N + 1) g =
      Function.update (countGsizes grid N g) (grid N) (countGsizes grid N g (grid N) + 1) := by
  unfold countGsizes
  rw [List.range_succ, List.foldl_append]
  rfl

theorem countGsizes_sum (grid : Nat → Nat) (G : Nat) (g : Nat → Int) :
    ∀ N, (∀ i, i < N → 1 ≤ grid i ∧ grid i < G) →
      sumSizes G (countGsizes grid N g) = sumSizes G g + N := by
  intro N
  induction N with
  | zero =>
    intro _
    simp [countGsizes]
  | succ N ih =>
    intro h
    rw [countGsizes_succ, sumSizes_bump G _ _ 1 (h N (by omega)).1 (h N (by omega)).2,
      ih (fun i hi => h i (by omega))]
    push_cast
    ring

theorem countGsizes_apply (grid : Nat → Nat) (g : Nat → Int) (id : Nat) :
    ∀ N, countGsizes grid N g id = g id + voxelCount grid N id := by
  intro N
  induction N with
  | zero => simp [countGsizes, voxelCount]
  | succ N ih =>
    rw [countGsizes_succ]
    unfold voxelCount at ih ⊢
    rw [List.range_succ, List.countP_append]
    by_cases h : grid N = id
    · subst h
      simp only [Function.update_same, ih, List.countP_cons, List.countP_nil, decide_True,
        if_true]
      push_cast
      ring
    · rw [Function.update_noteq (Ne.symm h), ih]
      simp [h]

theorem update2_apply (g : Nat → Int) (i j x : Nat) :
    Function.update (Function.update g i (g i + 1)) j
        (Function.update g i (g i + 1) j - 1) x =
      g x + ((if x = i then 1 else 0) - (if x = j then 1 else 0)) := by
  by_cases hj : x = j
  · subst hj
    rw [Function.update_same]
    by_cases hi : x = i
    · subst hi
      simp
    · simp only [Function.update_noteq hi, hi, if_false, if_true]
      ring
  · rw [Function.update_noteq hj]
    by_cases hi : x = i
    · subst hi
      simp [hj]
    · simp [Function.update_noteq hi, hi, hj]

theorem bookVoxel_apply (st : StepState) (g : Nat → Int) (a x : Nat) :
    bookVoxel st g a x = g x + sizeDelta st.reassigned st.grain_indicies a x := by
  by_cases h : 0 < st.reassigned a
  · have e : bookVoxel st g a =
        Function.update (Function.update g (st.grain_indicies a) (g (st.grain_indicies a) + 1))
          (st.reassigned a).toNat
          (Function.update g (st.grain_indicies a) (g (st.grain_indicies a) + 1)
            (st.reassigned a).toNat - 1) := by
      unfold bookVoxel
      rw [if_pos h]
    rw [e, update2_apply]
    unfold sizeDelta
    rw [if_pos h]
  · have e : bookVoxel st g a = g := by
      unfold bookVoxel
      rw [if_neg h]
    rw [e]
    unfold sizeDelta
    rw [if_neg h, add_zero]

/-- The bookkeeping loop adds to every size the changes of the listed voxels. -/
theorem bookkeeping_fold (st : StepState) (x : Nat) :
    ∀ (l : List Nat) (g : Nat → Int),
      l.foldl (bookVoxel st) g x =
        g x + (l.map fun a => sizeDelta st.reassigned st.grain_indicies a x).sum := by
  intro l
  induction l with
  | nil =>
    intro g
    simp
  | cons a l ih =>
    intro g
    rw [List.foldl_cons, ih, bookVoxel_apply, List.map_cons, List.sum_cons]
    ring

theorem bookVoxel_sum (G : Nat) (st : StepState) (g : Nat → Int) (a : Nat)
    (h : 0 < st.reassigned a → (1 ≤ st.grain_indicies a ∧ st.grain_indicies a < G) ∧
      (1 ≤ (st.reassigned a).toNat ∧ (st.reassigned a).toNat < G)) :
    sumSizes G (bookVoxel st g a) = sumSizes G g := by
  unfold bookVoxel
  split_ifs with hc
  · obtain ⟨⟨h1, h2⟩, h3, h4⟩ := h hc
    simp only []
    rw [sub_eq_add_neg, sumSizes_bump G _ _ _ h3 h4, sumSizes_bump G _ _ _ h1 h2]
    ring
  · rfl

theorem bookkeeping_sum_fold (G : Nat) (st : StepState) :
    ∀ (l : List Nat) (g : Nat → Int),
      (∀ a ∈ l, 0 < st.reassigned a → (1 ≤ st.grain_indicies a ∧ st.grain_indicies a < G) ∧
        (1 ≤ (st.reassigned a).toNat ∧ (st.reassigned a).toNat < G)) →
      sumSizes G (l.foldl (bookVoxel st) g) = sumSizes G g := by
  intro l
  induction l with
  | nil =>
    intro g _
    rfl
  | cons a l ih =>
    intro g h
    rw [List.foldl_cons, ih _ (fun b hb => h b (List.mem_cons_of_mem _ hb)),
      bookVoxel_sum G st g a (h a (List.mem_cons_self _ _))]

/-! ## Rollback -/

theorem rollbackVoxel_fst (r : Nat → Int) (p : (Nat → Nat) × (Nat → Int)) (a i : Nat) :
    (rollbackVoxel r p a).1 i = if i = a ∧ 0 < r a then (r a).toNat else p.1 i := by
  unfold rollbackVoxel
  by_cases h : 0 < r a
  · rw [if_pos h]
    simp only []
    by_cases hi : i = a
    · subst hi
      rw [Function.update_same, if_pos ⟨rfl, h⟩]
    · rw [Function.update_noteq hi, if_neg (fun hc => hi hc.1)]
  · rw [if_neg h, if_neg (fun hc => h hc.2)]

theorem update2_apply_sub (g : Nat → Int) (i j x : Nat) :
    Function.update (Function.update g i (g i - 1)) j
        (Function.update g i (g i - 1) j + 1) x =
      g x - ((if x = i then 1 else 0) - (if x = j then 1 else 0)) := by
  by_cases hj : x = j
  · subst hj
    rw [Function.update_same]
    by_cases hi : x = i
    · subst hi
      simp
    · simp only [Function.update_noteq hi, hi, if_false, if_true]
      ring
  · rw [Function.update_noteq hj]
    by_cases hi : x = i
    · subst hi
      simp [hj]
    · simp [Function.update_noteq hi, hi, hj]

theorem rollbackVoxel_snd (r : Nat → Int) (p : (Nat → Nat) × (Nat → Int)) (a x : Nat) :
    (rollbackVoxel r p a).2 x = p.2 x - sizeDelta r p.1 a x := by
  by_cases h : 0 < r a
  · have e : (rollbackVoxel r p a).2 =
        Function.update (Function.update p.2 (p.1 a) (p.2 (p.1 a) - 1)) (r a).toNat
          (Function.update p.2 (p.1 a) (p.2 (p.1 a) - 1) (r a).toNat + 1) := by
      have e0 : Function.update p.1 a (r a).toNat a = (r a).toNat :=
        Function.update_same _ _ _
      unfold rollbackVoxel
      rw [if_pos h]
      simp only []
      rw [e0]
    rw [e, update2_apply_sub]
    unfold sizeDelta
    rw [if_pos h]
  · have e : rollbackVoxel r p a = p := by
      unfold rollbackVoxel
      rw [if_neg h]
    rw [e]
    unfold sizeDelta
    rw [if_neg h, sub_zero]

theorem sizeDelta_congr (r : Nat → Int) (grid grid2 : Nat → Nat) (a x : Nat)
    (h : grid a = grid2 a) : sizeDelta r grid a x = sizeDelta r grid2 a x := by
  unfold sizeDelta
  rw [h]

/-- The rollback loop over a list without repeats: every listed voxel with a positive marker
gets the id its marker records, and every size loses the change the voxel had made. -/
theorem rollback_fold (r : Nat → Int) :
    ∀ (l : List Nat), l.Nodup → ∀ (p : (Nat → Nat) × (Nat → Int)),
      (∀ i, (l.foldl (rollbackVoxel r) p).1 i =
        if i ∈ l ∧ 0 < r i then (r i).toNat else p.1 i) ∧
      (∀ x, (l.foldl (rollbackVoxel r) p).2 x =
        p.2 x - (l.map fun a => sizeDelta r p.1 a x).sum) := by
  intro l
  induction l with
  | nil =>
    intro _ p
    simp
  | cons a l ih =>
    intro hnd p
    rw [List.nodup_cons] at hnd
    obtain ⟨hal, hl⟩ := hnd
    obtain ⟨ih1, ih2⟩ := ih hl (rollbackVoxel r p a)
    rw [List.foldl_cons]
    constructor
    · intro i
      rw [ih1, rollbackVoxel_fst]
      by_cases hil : i ∈ l
      · have hia : i ≠ a := fun hc => hal (hc ▸ hil)
        by_cases hr : 0 < r i
        · rw [if_pos ⟨hil, hr⟩, if_pos ⟨List.mem_cons_of_mem _ hil, hr⟩]
        · rw [if_neg (fun hc => hr hc.2), if_neg (fun hc => hia hc.1),
            if_neg (fun hc => hr hc.2)]
      · rw [if_neg (fun hc => hil hc.1)]
        by_cases hia : i = a
        · subst hia
          by_cases hr : 0 < r i
          · rw [if_pos ⟨rfl, hr⟩, if_pos ⟨List.mem_cons_self _ _, hr⟩]
          · rw [if_neg (fun hc => hr hc.2), if_neg (fun hc => hr hc.2)]
        · rw [if_neg (fun hc => hia hc.1), if_neg]
          intro hc
          rcases List.mem_cons.1 hc.1 with h | h
          · exact hia h
          · exact hil h
    · intro x
      rw [ih2, rollbackVoxel_snd, List.map_cons, List.sum_cons]
      have hcongr : (l.map fun b => sizeDelta r (rollbackVoxel r p a).1 b x) =
          (l.map fun b => sizeDelta r p.1 b x) := by
        apply List.map_congr_left
        intro b hb
        apply sizeDelta_congr
        rw [rollbackVoxel_fst, if_neg]
        intro hc
        exact hal (hc.1 ▸ hb)
      rw [hcongr]
      ring

/-- Rollback after bookkeeping restores the grid the step started from and the size table
the bookkeeping started from. -/
theorem rollback_restores {N : Nat} {Q : Nat → Prop} {grid0 : Nat → Nat} {sel : Nat}
    {growth : Int} {st : StepState} (h : FloodInv N Q grid0 sel growth st) (g : Nat → Int) :
    (∀ i, (rollback st (bookkeeping st g)).1 i = grid0 i) ∧
      (rollback st (bookkeeping st g)).2 = g := by
  obtain ⟨h1, h2⟩ := rollback_fold st.reassigned st.affectedvoxellist h.nodup
    (st.grain_indicies, bookkeeping st g)
  constructor
  · intro i
    unfold rollback
    rw [h1]
    by_cases hr : 0 < st.reassigned i
    · rw [if_pos ⟨(h.mem_iff i).2 hr, hr⟩, h.orig i hr, Int.toNat_natCast]
    · rw [if_neg (fun hc => hr hc.2)]
      exact h.keep i (by omega)
  · funext x
    unfold rollback
    rw [h2]
    simp only []
    unfold bookkeeping
    rw [bookkeeping_fold]
    ring

/-! ## Accept / reject and the whole step -/

theorem Score.not_gt_self {E : Type} [LinearOrder E] (a : Score E) : ¬ a.gt a := by
  cases a with
  | nan => exact fun h => h
  | val x => exact lt_irrefl x

theorem Score.not_le_of_gt {E : Type} [LinearOrder E] {a b : Score E} (h : a.gt b) :
    ¬ a.le b := by
  cases a with
  | nan => exact fun h2 => h2
  | val x =>
    cases b with
    | nan => exact fun h2 => h2
    | val y => exact not_le.2 h

theorem Score.le_or_gt {E : Type} [LinearOrder E] {a b : Score E} (ha : a ≠ Score.nan)
    (hb : b ≠ Score.nan) : a.le b ∨ a.gt b := by
  cases a with
  | nan => exact absurd rfl ha
  | val x =>
    cases b with
    | nan => exact absurd rfl hb
    | val y => exact le_or_lt x y

theorem Score.ne_nan_of_le {E : Type} [LinearOrder E] {a b : Score E} (h : a.le b) :
    a ≠ Score.nan ∧ b ≠ Score.nan := by
  cases a with
  | nan => exact absurd h (fun h2 => h2)
  | val x =>
    cases b with
    | nan => exact absurd h (fun h2 => h2)
    | val y => exact ⟨fun h2 => Score.noConfusion h2, fun h2 => Score.noConfusion h2⟩

theorem Score.ne_nan_of_gt {E : Type} [LinearOrder E] {a b : Score E} (h : a.gt b) :
    a ≠ Score.nan ∧ b ≠ Score.nan := by
  cases a with
  | nan => exact absurd h (fun h2 => h2)
  | val x =>
    cases b with
    | nan => exact absurd h (fun h2 => h2)
    | val y => exact ⟨fun h2 => Score.noConfusion h2, fun h2 => Score.noConfusion h2⟩

theorem updateDiameters_length {D : Type} (diam : Int → D) (g : Nat → Int)
    (l : List (Grain D)) : (updateDiameters diam g l).length = l.length := by
  simp [updateDiameters]

/-- The commit branch: taken when the test `currentsizedisterror <= oldsizedisterror` holds. -/
theorem resolve_commit {D E : Type} [LinearOrder E] (fuel : Nat) (diam : Int → D)
    (e0 e1 : Score E) (gs : Nat → Int) (grains : List (Grain D)) (sel : Nat) (growth : Int)
    (nucleus : Nat) (st : StepState) (h : e1.le e0) (hfuel : grains.length ≤ fuel)
    (hpos : 0 < fuel) :
    ∃ grains2,
      eraseLoop (bookkeeping st gs) fuel 1 (updateDiameters diam (bookkeeping st gs) grains)
        = some grains2 ∧
      resolve fuel diam e0 e1 gs grains sel growth nucleus st = some
        { grain_indicies := st.grain_indicies
          m_Grains := grains2
          gsizes := bookkeeping st gs
          reassigned := fun _ => 0
          oldsizedisterror := e1
          bad := 0
          selectedgrain := sel
          growth := growth
          nucleus := nucleus
          voxellist := st.voxellist
          affectedvoxellist := st.affectedvoxellist } := by
  obtain ⟨grains2, hg⟩ := eraseLoop_terminates (bookkeeping st gs) fuel 1
    (updateDiameters diam (bookkeeping st gs) grains)
    (by rw [updateDiameters_length]; omega) hpos
  refine ⟨grains2, hg, ?_⟩
  unfold resolve
  simp only [if_pos h, hg, Option.map_some', if_neg (Score.not_gt_self e1)]

/-- The rollback branch: taken when the test `currentsizedisterror > oldsizedisterror`
holds. -/
theorem resolve_reject {D E : Type} [LinearOrder E] (fuel : Nat) (diam : Int → D)
    (e0 e1 : Score E) (gs : Nat → Int) (grains : List (Grain D)) (sel : Nat) (growth : Int)
    (nucleus : Nat) (st : StepState) (h : e1.gt e0) :
    resolve fuel diam e0 e1 gs grains sel growth nucleus st = some
      { grain_indicies := (rollback st (bookkeeping st gs)).1
        m_Grains := updateDiameters diam (rollback st (bookkeeping st gs)).2
          (updateDiameters diam (bookkeeping st gs) grains)
        gsizes := (rollback st (bookkeeping st gs)).2
        reassigned := fun _ => 0
        oldsizedisterror := e0
        bad := 1
        selectedgrain := sel
        growth := growth
        nucleus := nucleus
        voxellist := st.voxellist
        affectedvoxellist := st.affectedvoxellist } := by
  unfold resolve
  simp only [if_neg (Score.not_le_of_gt h), if_pos h]

/-- The third path: with a NaN score neither test holds, and neither the commit nor the
rollback runs. The perturbed grid and the booked sizes stay, no record is erased, and the
previous error is not overwritten. -/
theorem resolve_neither {D E : Type} [LinearOrder E] (fuel : Nat) (diam : Int → D)
    (e0 e1 : Score E) (gs : Nat → Int) (grains : List (Grain D)) (sel : Nat) (growth : Int)
    (nucleus : Nat) (st : StepState) (h1 : ¬ e1.le e0) (h2 : ¬ e1.gt e0) :
    resolve fuel diam e0 e1 gs grains sel growth nucleus st = some
      { grain_indicies := st.grain_indicies
        m_Grains := updateDiameters diam (bookkeeping st gs) grains
        gsizes := bookkeeping st gs
        reassigned := fun _ => 0
        oldsizedisterror := e0
        bad := 0
        selectedgrain := sel
        growth := growth
        nucleus := nucleus
        voxellist := st.voxellist
        affectedvoxellist := st.affectedvoxellist } := by
  unfold resolve
  simp only [if_neg h1, if_neg h2]

/-- A step whose selection ends and whose selected id is not above every id of the grid runs
to its accept / reject stage: the nucleus search and the worklist loop end, and the state the
worklist loop leaves satisfies the invariant. -/
theorem step_run {D E : Type} [LinearOrder E] (fuel : Nat) (diam : Int → D) (rg : Nat → Nat)
    (e0 e1 : Score E) (gs : Nat → Int) (m : DataContainer D) (s0 k : Nat)
    (hX : 1 ≤ m.xpoints) (hY : 1 ≤ m.ypoints)
    (hids : ∀ i, i < m.totalpoints →
      1 ≤ m.grain_indicies i ∧ m.grain_indicies i < m.m_Grains.length)
    (hsel : selectGrain m.m_Grains rg fuel 0 = some (s0, k))
    (hex : ∃ i, i < m.totalpoints ∧ s0 ≤ m.grain_indicies i)
    (hfuel : m.m_Grains.length * m.totalpoints + m.totalpoints + 2 ≤ fuel) :
    ∃ s n st,
      findNucleus m.grain_indicies m.totalpoints fuel s0 0 = some (s, n) ∧
      flood m.xpoints m.ypoints m.zpoints s (growthOf (rg k)) fuel 0
        (startState m.grain_indicies n) = some st ∧
      FloodInv m.totalpoints (fun id => id < m.m_Grains.length) m.grain_indicies s
        (growthOf (rg k)) st ∧
      s0 ≤ s ∧ m.grain_indicies n = s ∧ n < m.totalpoints ∧
      step fuel diam rg e0 e1 gs m =
        resolve fuel diam e0 e1 gs m.m_Grains s (growthOf (rg k)) n st := by
  obtain ⟨i, hi, hle⟩ := hex
  have hN : 0 < m.totalpoints := by omega
  have hs0 := (selectGrain_some m.m_Grains rg fuel 0 s0 k hsel).1
  obtain ⟨s, n, hnuc⟩ := findNucleus_start m.grain_indicies m.totalpoints m.m_Grains.length
    fuel s0 hs0 ⟨i, hi, hle⟩ (fun j hj => (hids j hj).2) (by omega)
  obtain ⟨hgn, hs, hn⟩ := findNucleus_some m.grain_indicies m.totalpoints fuel s0 0 s n hnuc hN
  have hfl := flood_start (X := m.xpoints) (Y := m.ypoints) (Z := m.zpoints)
    (fun id => id < m.m_Grains.length) m.grain_indicies s (growthOf (rg k)) fuel n hX hY hn hids
    (by unfold DataContainer.totalpoints at hfuel; omega)
  obtain ⟨st, hst, hinv⟩ := hfl
  refine ⟨s, n, st, hnuc, hst, hinv, hs, hgn, hn, ?_⟩
  unfold step
  simp only [hsel, hnuc, hst]

/-! ## The whole function -/

theorem adjust_run {D E : Type} [LinearOrder E] (fuel : Nat) (diam : Int → D) (rg : Nat → Nat)
    (e0 e1 : Score E) (gs_old : Nat → Int) (raw : Nat → Nat) (m : DataContainer D)
    (r : StepResult D E)
    (h : step fuel diam rg e0 e1
      (countGsizes m.grain_indicies m.totalpoints (initGsizes gs_old m.m_Grains.length)) m
        = some r) :
    adjust_boundaries fuel diam rg e0 e1 gs_old raw m = some
      { m := { m with
          grain_indicies := fun i =>
            if i < m.totalpoints then newnames raw r.m_Grains.length (r.grain_indicies i)
            else r.grain_indicies i
          m_Grains := r.m_Grains }
        gsizes := r.gsizes
        oldsizedisterror := r.oldsizedisterror
        bad := r.bad
        selectedgrain := r.selectedgrain
        growth := r.growth
        nucleus := r.nucleus
        voxellist := r.voxellist
        affectedvoxellist := r.affectedvoxellist } := by
  unfold adjust_boundaries
  simp only [h]

theorem bookkeeping_sum {N G : Nat} {grid0 : Nat → Nat} {sel : Nat} {growth : Int}
    {st : StepState} (h : FloodInv N (fun id => id < G) grid0 sel growth st)
    (hids : ∀ i, i < N → 1 ≤ grid0 i ∧ grid0 i < G) (g : Nat → Int) :
    sumSizes G (bookkeeping st g) = sumSizes G g := by
  unfold bookkeeping
  apply bookkeeping_sum_fold
  intro a ha hr
  have ha2 := h.aff_lt a ha
  refine ⟨h.range a ha2, ?_⟩
  rw [h.orig a hr, Int.toNat_natCast]
  exact hids a ha2

theorem gsizes_start_sum (grid : Nat → Nat) (N G : Nat) (gs_old : Nat → Int)
    (hids : ∀ i, i < N → 1 ≤ grid i ∧ grid i < G) :
    sumSizes G (countGsizes grid N (initGsizes gs_old G)) = (N : Int) := by
  rw [countGsizes_sum grid G _ N hids, sumSizes_init, zero_add]

theorem voxelCount_zero (grid : Nat → Nat) (N : Nat) (hids : ∀ i, i < N → 1 ≤ grid i) :
    voxelCount grid N 0 = 0 := by
  unfold voxelCount
  rw [List.countP_eq_zero]
  intro i hi
  have := hids i (List.mem_range.1 hi)
  simp only [decide_eq_true_eq]
  omega

theorem gsizes_start_zero (grid : Nat → Nat) (N G : Nat) (gs_old : Nat → Int)
    (hids : ∀ i, i < N → 1 ≤ grid i) :
    countGsizes grid N (initGsizes gs_old G) 0 = gs_old 0 := by
  rw [countGsizes_apply, voxelCount_zero grid N hids]
  simp [initGsizes]

theorem bookkeeping_zero {N : Nat} {Q : Nat → Prop} {grid0 : Nat → Nat} {sel : Nat}
    {growth : Int} {st : StepState} (h : FloodInv N Q grid0 sel growth st)
    (hids : ∀ i, i < N → 1 ≤ grid0 i) (g : Nat → Int) : bookkeeping st g 0 = g 0 := by
  unfold bookkeeping
  rw [bookkeeping_fold, List.sum_eq_zero, add_zero]
  intro x hx
  obtain ⟨a, ha, rfl⟩ := List.mem_map.1 hx
  have ha2 := h.aff_lt a ha
  have hr := (h.mem_iff a).1 ha
  have h1 := (h.range a ha2).1
  have h2 := hids a ha2
  unfold sizeDelta
  rw [if_pos hr, h.orig a hr, Int.toNat_natCast, if_neg (by omega), if_neg (by omega), sub_zero]

/-- Claim C1. Conservation. For a grid with `X, Y, Z ≥ 1` whose ids all lie in `[1, G)`, any
stream of draws and any two scorer results: when the selection ends and some voxel carries an
id not below the selected one, `adjust_boundaries` resolves its step (accepted, rejected, or
neither when a score is NaN) and the sizes `gsizes[id]` of the ids `1 .. G-1` then sum to the voxel count `X*Y*Z`; the
unused slot `0` holds what it held before the call. -/
theorem conservation {D E : Type} [LinearOrder E] (fuel : Nat) (diam : Int → D)
    (rg : Nat → Nat) (e0 e1 : Score E) (gs_old : Nat → Int) (raw : Nat → Nat) (m : DataContainer D)
    (s0 k : Nat) (hX : 1 ≤ m.xpoints) (hY : 1 ≤ m.ypoints) (_hZ : 1 ≤ m.zpoints)
    (hids : ∀ i, i < m.totalpoints →
      1 ≤ m.grain_indicies i ∧ m.grain_indicies i < m.m_Grains.length)
    (hsel : selectGrain m.m_Grains rg fuel 0 = some (s0, k))
    (hex : ∃ i, i < m.totalpoints ∧ s0 ≤ m.grain_indicies i)
    (hfuel : m.m_Grains.length * m.totalpoints + m.totalpoints + 2 ≤ fuel) :
    ∃ r, adjust_boundaries fuel diam rg e0 e1 gs_old raw m = some r ∧
      sumSizes m.m_Grains.length r.gsizes = (m.totalpoints : Int) ∧
      r.gsizes 0 = gs_old 0 := by
  obtain ⟨s, n, st, -, -, hinv, -, -, -, hstep⟩ := step_run fuel diam rg e0 e1
    (countGsizes m.grain_indicies m.totalpoints (initGsizes gs_old m.m_Grains.length)) m s0 k
    hX hY hids hsel hex hfuel
  have hstart := gsizes_start_sum m.grain_indicies m.totalpoints m.m_Grains.length gs_old hids
  have hzero := gsizes_start_zero m.grain_indicies m.totalpoints m.m_Grains.length gs_old
    (fun i hi => (hids i hi).1)
  by_cases hle : e1.le e0
  · obtain ⟨grains2, -, hres⟩ := resolve_commit fuel diam e0 e1
      (countGsizes m.grain_indicies m.totalpoints (initGsizes gs_old m.m_Grains.length))
      m.m_Grains s (growthOf (rg k)) n st hle
      (by have := Nat.le_mul_of_pos_right m.m_Grains.length
            (by obtain ⟨i, hi, -⟩ := hex; omega : 0 < m.totalpoints)
          omega) (by omega)
    rw [hres] at hstep
    refine ⟨_, adjust_run fuel diam rg e0 e1 gs_old raw m _ hstep, ?_, ?_⟩
    · simp only []
      rw [bookkeeping_sum hinv hids, hstart]
    · simp only []
      rw [bookkeeping_zero hinv (fun i hi => (hids i hi).1), hzero]
  · by_cases hlt : e1.gt e0
    · have hres := resolve_reject fuel diam e0 e1
        (countGsizes m.grain_indicies m.totalpoints (initGsizes gs_old m.m_Grains.length))
        m.m_Grains s (growthOf (rg k)) n st hlt
      rw [hres] at hstep
      refine ⟨_, adjust_run fuel diam rg e0 e1 gs_old raw m _ hstep, ?_, ?_⟩
      · simp only []
        rw [(rollback_restores hinv _).2, hstart]
      · simp only []
        rw [(rollback_restores hinv _).2, hzero]
    · have hres := resolve_neither fuel diam e0 e1
        (countGsizes m.grain_indicies m.totalpoints (initGsizes gs_old m.m_Grains.length))
        m.m_Grains s (growthOf (rg k)) n st hle hlt
      rw [hres] at hstep
      refine ⟨_, adjust_run fuel diam rg e0 e1 gs_old raw m _ hstep, ?_, ?_⟩
      · simp only []
        rw [bookkeeping_sum hinv hids, hstart]
      · simp only []
        rw [bookkeeping_zero hinv (fun i hi => (hids i hi).1), hzero]

theorem conservation_witness :
    ∃ r, adjust_boundaries 258 (fun _ => ()) exampleDraws (Score.val (1 : Int)) (Score.val 2) (fun _ => 0) (fun _ => 0)
        exampleContainer = some r ∧
      sumSizes exampleContainer.m_Grains.length r.gsizes
        = (exampleContainer.totalpoints : Int) ∧
      r.gsizes 0 = (fun _ => 0 : Nat → Int) 0 :=
  conservation 258 (fun _ => ()) exampleDraws (Score.val (1 : Int)) (Score.val 2) (fun _ => 0) (fun _ => 0)
    exampleContainer 1 1 (by decide) (by decide) (by decide) (by decide) (by decide)
    ⟨21, by decide, by decide⟩ (by decide)

theorem newnames_of_range (raw : Nat → Nat) (size id : Nat) (h1 : 1 ≤ id) (h2 : id < size) :
    newnames raw size id = id := by
  unfold newnames
  rw [if_pos ⟨h1, h2⟩]

/-- Claim C2. Rollback exactness (labels and sizes). For a grid with `X, Y, Z ≥ 1` whose ids lie
in `[1, G)` and a step whose score is rejected (`currentError > previousError`): when the
selection ends and some voxel carries an id not below the selected one, `adjust_boundaries`
returns, the rollback was taken, every voxel carries the id it carried before the step, every
size is the one counted before the step (for the ids `1 .. G-1` the number of voxels with that
id), the table has as many records as before, and the previous error is unchanged. -/
theorem rollback_exact {D E : Type} [LinearOrder E] (fuel : Nat) (diam : Int → D)
    (rg : Nat → Nat) (e0 e1 : Score E) (gs_old : Nat → Int) (raw : Nat → Nat) (m : DataContainer D)
    (s0 k : Nat) (hX : 1 ≤ m.xpoints) (hY : 1 ≤ m.ypoints) (_hZ : 1 ≤ m.zpoints)
    (hids : ∀ i, i < m.totalpoints →
      1 ≤ m.grain_indicies i ∧ m.grain_indicies i < m.m_Grains.length)
    (hsel : selectGrain m.m_Grains rg fuel 0 = some (s0, k))
    (hex : ∃ i, i < m.totalpoints ∧ s0 ≤ m.grain_indicies i)
    (hfuel : m.m_Grains.length * m.totalpoints + m.totalpoints + 2 ≤ fuel)
    (hrej : e1.gt e0) :
    ∃ r, adjust_boundaries fuel diam rg e0 e1 gs_old raw m = some r ∧
      r.bad = 1 ∧
      (∀ i, r.m.grain_indicies i = m.grain_indicies i) ∧
      r.gsizes = countGsizes m.grain_indicies m.totalpoints
        (initGsizes gs_old m.m_Grains.length) ∧
      (∀ id, 1 ≤ id → id < m.m_Grains.length →
        r.gsizes id = (voxelCount m.grain_indicies m.totalpoints id : Int)) ∧
      r.m.m_Grains.length = m.m_Grains.length ∧
      r.oldsizedisterror = e0 := by
  obtain ⟨s, n, st, -, -, hinv, -, -, -, hstep⟩ := step_run fuel diam rg e0 e1
    (countGsizes m.grain_indicies m.totalpoints (initGsizes gs_old m.m_Grains.length)) m s0 k
    hX hY hids hsel hex hfuel
  have hres := resolve_reject fuel diam e0 e1
    (countGsizes m.grain_indicies m.totalpoints (initGsizes gs_old m.m_Grains.length))
    m.m_Grains s (growthOf (rg k)) n st hrej
  rw [hres] at hstep
  obtain ⟨hgrid, hgs⟩ := rollback_restores hinv
    (countGsizes m.grain_indicies m.totalpoints (initGsizes gs_old m.m_Grains.length))
  refine ⟨_, adjust_run fuel diam rg e0 e1 gs_old raw m _ hstep, rfl, ?_, hgs, ?_, ?_, rfl⟩
  · intro i
    simp only [hgrid, updateDiameters_length]
    split_ifs with hi
    · exact newnames_of_range raw _ _ (hids i hi).1 (hids i hi).2
    · rfl
  · intro id h1 h2
    simp only [hgs]
    rw [countGsizes_apply]
    unfold initGsizes
    rw [if_pos ⟨h1, h2⟩, zero_add]
  · simp only [updateDiameters_length]

theorem rollback_exact_witness :
    ∃ r, adjust_boundaries 258 (fun _ => ()) exampleDraws (Score.val (1 : Int)) (Score.val 2) (fun _ => 0) (fun _ => 0)
        exampleContainer = some r ∧
      r.bad = 1 ∧
      (∀ i, r.m.grain_indicies i = exampleContainer.grain_indicies i) ∧
      r.gsizes = countGsizes exampleContainer.grain_indicies exampleContainer.totalpoints
        (initGsizes (fun _ => 0) exampleContainer.m_Grains.length) ∧
      (∀ id, 1 ≤ id → id < exampleContainer.m_Grains.length →
        r.gsizes id
          = (voxelCount exampleContainer.grain_indicies exampleContainer.totalpoints id : Int)) ∧
      r.m.m_Grains.length = exampleContainer.m_Grains.length ∧
      r.oldsizedisterror = Score.val 1 :=
  rollback_exact 258 (fun _ => ()) exampleDraws (Score.val (1 : Int)) (Score.val 2) (fun _ => 0) (fun _ => 0)
    exampleContainer 1 1 (by decide) (by decide) (by decide) (by decide) (by decide)
    ⟨21, by decide, by decide⟩ (by decide) (by decide)

/-- Claim C5, as amended. Accept / reject rule. For a grid with `X, Y, Z ≥ 1` whose ids lie in
`[1, G)`: when the selection ends and some voxel carries an id not below the selected one,
the step reaches its two tests on the score. For a previous and a current error that are not
NaN exactly one of the two tests holds, and the step is committed (`bad` stays `0`) exactly
when `currentError <= previousError`, a tie included, and rolled back (`bad` becomes `1`)
exactly when `currentError > previousError`. A committed step keeps the grid the perturbation
left and the sizes the bookkeeping left, and the previous error becomes the current one. A
rolled back step has the grid and the sizes from before the step, and the previous error
stays. The two tests never hold together. When neither holds, which takes a NaN score, neither
the commit nor the rollback runs: the perturbed grid and the booked sizes stay, the previous
error stays, and no record is erased. -/
theorem accept_reject {D E : Type} [LinearOrder E] (fuel : Nat) (diam : Int → D)
    (rg : Nat → Nat) (e0 e1 : Score E) (gs : Nat → Int) (m : DataContainer D)
    (s0 k : Nat) (hX : 1 ≤ m.xpoints) (hY : 1 ≤ m.ypoints) (_hZ : 1 ≤ m.zpoints)
    (hids : ∀ i, i < m.totalpoints →
      1 ≤ m.grain_indicies i ∧ m.grain_indicies i < m.m_Grains.length)
    (hsel : selectGrain m.m_Grains rg fuel 0 = some (s0, k))
    (hex : ∃ i, i < m.totalpoints ∧ s0 ≤ m.grain_indicies i)
    (hfuel : m.m_Grains.length * m.totalpoints + m.totalpoints + 2 ≤ fuel) :
    ∃ s n st r,
      findNucleus m.grain_indicies m.totalpoints fuel s0 0 = some (s, n) ∧
      flood m.xpoints m.ypoints m.zpoints s (growthOf (rg k)) fuel 0
        (startState m.grain_indicies n) = some st ∧
      step fuel diam rg e0 e1 gs m = some r ∧
      (e0 ≠ Score.nan → e1 ≠ Score.nan →
        (e1.le e0 ∨ e1.gt e0) ∧ (r.bad = 0 ↔ e1.le e0) ∧ (r.bad = 1 ↔ e1.gt e0)) ∧
      ¬ (e1.le e0 ∧ e1.gt e0) ∧
      (e1.le e0 → r.bad = 0 ∧ r.grain_indicies = st.grain_indicies ∧
        r.gsizes = bookkeeping st gs ∧ r.oldsizedisterror = e1) ∧
      (e1.gt e0 → r.bad = 1 ∧ (∀ i, r.grain_indicies i = m.grain_indicies i) ∧
        r.gsizes = gs ∧ r.oldsizedisterror = e0) ∧
      (¬ e1.le e0 → ¬ e1.gt e0 → r.bad = 0 ∧ r.grain_indicies = st.grain_indicies ∧
        r.gsizes = bookkeeping st gs ∧ r.oldsizedisterror = e0 ∧
        r.m_Grains = updateDiameters diam (bookkeeping st gs) m.m_Grains) := by
  obtain ⟨s, n, st, hnuc, hfl, hinv, -, -, -, hstep⟩ := step_run fuel diam rg e0 e1
    gs m s0 k hX hY hids hsel hex hfuel
  have hexcl : ¬ (e1.le e0 ∧ e1.gt e0) := fun h => Score.not_le_of_gt h.2 h.1
  by_cases hle : e1.le e0
  · obtain ⟨grains2, -, hres⟩ := resolve_commit fuel diam e0 e1 gs
      m.m_Grains s (growthOf (rg k)) n st hle
      (by have := Nat.le_mul_of_pos_right m.m_Grains.length
            (by obtain ⟨i, hi, -⟩ := hex; omega : 0 < m.totalpoints)
          omega) (by omega)
    rw [hres] at hstep
    have hngt : ¬ e1.gt e0 := fun h => hexcl ⟨hle, h⟩
    refine ⟨s, n, st, _, hnuc, hfl, hstep, ?_, hexcl, ?_, ?_, ?_⟩
    · intro _ _
      refine ⟨Or.inl hle, ⟨fun _ => hle, fun _ => rfl⟩, ⟨fun h => ?_, fun h => absurd h hngt⟩⟩
      simp at h
    · intro _
      exact ⟨rfl, rfl, rfl, rfl⟩
    · intro h
      exact absurd h hngt
    · intro h
      exact absurd hle h
  · by_cases hgt : e1.gt e0
    · have hres := resolve_reject fuel diam e0 e1 gs m.m_Grains s (growthOf (rg k)) n st hgt
      rw [hres] at hstep
      obtain ⟨hgrid, hgs⟩ := rollback_restores hinv gs
      refine ⟨s, n, st, _, hnuc, hfl, hstep, ?_, hexcl, ?_, ?_, ?_⟩
      · intro _ _
        refine ⟨Or.inr hgt, ⟨fun h => ?_, fun h => absurd h hle⟩, ⟨fun _ => hgt, fun _ => rfl⟩⟩
        simp at h
      · intro h
        exact absurd h hle
      · intro _
        exact ⟨rfl, hgrid, hgs, rfl⟩
      · intro _ h
        exact absurd hgt h
    · have hres := resolve_neither fuel diam e0 e1 gs m.m_Grains s (growthOf (rg k)) n st
        hle hgt
      rw [hres] at hstep
      refine ⟨s, n, st, _, hnuc, hfl, hstep, ?_, hexcl, ?_, ?_, ?_⟩
      · intro h0 h1
        rcases Score.le_or_gt h1 h0 with h | h
        · exact absurd h hle
        · exact absurd h hgt
      · intro h
        exact absurd h hle
      · intro h
        exact absurd h hgt
      · intro _ _
        exact ⟨rfl, rfl, rfl, rfl, rfl⟩

theorem accept_reject_witness :
    ∃ s n st r,
      findNucleus exampleContainer.grain_indicies exampleContainer.totalpoints 258 1 0
        = some (s, n) ∧
      flood exampleContainer.xpoints exampleContainer.ypoints exampleContainer.zpoints s
        (growthOf (exampleDraws 1)) 258 0
        (startState exampleContainer.grain_indicies n) = some st ∧
      step 258 (fun _ => ()) exampleDraws (Score.val (1 : Int)) (Score.val 1) (fun _ => 0)
        exampleContainer = some r ∧
      (Score.val (1 : Int) ≠ Score.nan → Score.val (1 : Int) ≠ Score.nan →
        ((Score.val (1 : Int)).le (Score.val 1) ∨ (Score.val (1 : Int)).gt (Score.val 1)) ∧
        (r.bad = 0 ↔ (Score.val (1 : Int)).le (Score.val 1)) ∧
        (r.bad = 1 ↔ (Score.val (1 : Int)).gt (Score.val 1))) ∧
      ¬ ((Score.val (1 : Int)).le (Score.val 1) ∧ (Score.val (1 : Int)).gt (Score.val 1)) ∧
      ((Score.val (1 : Int)).le (Score.val 1) → r.bad = 0 ∧
        r.grain_indicies = st.grain_indicies ∧
        r.gsizes = bookkeeping st (fun _ => 0) ∧ r.oldsizedisterror = Score.val 1) ∧
      ((Score.val (1 : Int)).gt (Score.val 1) → r.bad = 1 ∧
        (∀ i, r.grain_indicies i = exampleContainer.grain_indicies i) ∧
        r.gsizes = (fun _ => 0) ∧ r.oldsizedisterror = Score.val 1) ∧
      (¬ (Score.val (1 : Int)).le (Score.val 1) → ¬ (Score.val (1 : Int)).gt (Score.val 1) →
        r.bad = 0 ∧ r.grain_indicies = st.grain_indicies ∧
        r.gsizes = bookkeeping st (fun _ => 0) ∧ r.oldsizedisterror = Score.val 1 ∧
        r.m_Grains = updateDiameters (fun _ => ()) (bookkeeping st (fun _ => 0))
          exampleContainer.m_Grains) :=
  accept_reject 258 (fun _ => ()) exampleDraws (Score.val (1 : Int)) (Score.val 1)
    (fun _ => 0) exampleContainer 1 1 (by decide) (by decide) (by decide) (by decide)
    (by decide) ⟨21, by decide, by decide⟩ (by decide)

/-- Claim C5. Accept / reject rule, at an input where the claim fails. On the example, with
the previous error `1` and a NaN current error, neither test holds: the step neither commits
nor rolls back. `bad` stays `0`, the previous error is still `1` and not the current error,
and the grid and the sizes are the perturbed ones (`20` and `44`), not those from before the
step (`4` and `60`). -/
theorem nan_neither_commit_nor_rollback :
    ¬ (Score.nan : Score Int).le (Score.val 1) ∧ ¬ (Score.nan : Score Int).gt (Score.val 1) ∧
    (step 66 (fun _ => ()) exampleDraws (Score.val (1 : Int)) Score.nan
        (countGsizes exampleGrid 64 (initGsizes (fun _ => 0) 3)) exampleContainer).map
      (fun r => (r.bad, r.oldsizedisterror, r.gsizes 1, r.gsizes 2,
        (List.range 64).map r.grain_indicies == (List.range 64).map exampleGrid))
      = some (0, Score.val 1, 20, 44, false) := by
  decide!

/-- Claim C10. Each voxel is perturbed at most once per step. For a grid with `X, Y, Z ≥ 1`
whose ids are `≥ 1`, any target id, any direction and any nucleus in the grid, starting with
all markers clear: the worklist loop ends, the affected list it built has no voxel twice, and
the marker of each listed voxel, its recorded original id, is the id the voxel carried before
the step. -/
theorem affected_once (X Y Z : Nat) (grid0 : Nat → Nat) (selectedgrain : Nat) (growth : Int)
    (fuel nucleus : Nat) (hX : 1 ≤ X) (hY : 1 ≤ Y) (_hZ : 1 ≤ Z)
    (hids : ∀ i, i < X * Y * Z → 1 ≤ grid0 i) (hn : nucleus < X * Y * Z)
    (hfuel : X * Y * Z + 2 ≤ fuel) :
    ∃ st, flood X Y Z selectedgrain growth fuel 0 (startState grid0 nucleus) = some st ∧
      st.affectedvoxellist.Nodup ∧
      ∀ a ∈ st.affectedvoxellist, st.reassigned a = (grid0 a : Int) := by
  obtain ⟨st, hst, hinv⟩ := flood_start (fun _ => True) grid0 selectedgrain growth fuel nucleus
    hX hY hn (fun i hi => ⟨hids i hi, trivial⟩) hfuel
  exact ⟨st, hst, hinv.nodup, fun a ha => hinv.orig a ((hinv.mem_iff a).1 ha)⟩

theorem affected_once_witness :
    ∃ st, flood 4 4 4 1 (-1) 66 0 (startState exampleGrid 21) = some st ∧
      st.affectedvoxellist.Nodup ∧
      ∀ a ∈ st.affectedvoxellist, st.reassigned a = (exampleGrid a : Int) :=
  affected_once 4 4 4 exampleGrid 1 (-1) 66 21 (by decide) (by decide) (by decide)
    (by decide) (by decide) (by decide)

/-- Claim C3. Boundary protection, at an input where it fails. On `containerEmptyFirst` the draw
`0.25` selects grain `1`, whose flag is not set and which owns no voxel; the nucleus search
moves on to grain `2`, whose boundary flag is set, and the grow step floods grain `2` and
hands it the voxel 13 of grain `3`. -/
theorem boundary_grain_targeted :
    selectGrain containerEmptyFirst.m_Grains drawsQuarter 40 0 = some (1, 1) ∧
    (containerEmptyFirst.m_Grains[2]?).map (fun g => g.surfacegrain) = some 1 ∧
    (adjust_boundaries 40 (fun _ => ()) drawsQuarter (Score.val (1 : Int)) (Score.val 1) (fun _ => 0) (fun _ => 0)
        containerEmptyFirst).map
      (fun r => (r.selectedgrain, r.growth, r.nucleus, r.affectedvoxellist))
      = some (2, 1, 0, [13]) := by
  decide!

/-- Claim C4. Compaction, at an input where it fails. On `containerTwoSingles` the committed grow
step of grain `1` empties grains `2` and `4`; the erase loop removes one record, leaving three
grains, and the renumbering pass is the identity, so the grid ends with the ids `1` and `3`
only: no voxel carries the id `2` of the range `[1..3]`. -/
theorem compaction_gap :
    (adjust_boundaries 40 (fun _ => ()) drawsQuarter (Score.val (1 : Int)) (Score.val 1) (fun _ => 0) (fun _ => 0)
        containerTwoSingles).map
      (fun r => (r.selectedgrain, r.bad, r.m.m_Grains.length,
        (List.range 27).map r.m.grain_indicies))
      = some (1, 0, 4,
          [3, 3, 3, 3, 1, 3, 3, 3, 3,
           3, 1, 3, 1, 1, 1, 3, 1, 3,
           3, 3, 3, 3, 1, 3, 3, 3, 3]) := by
  decide!

/-- Claim C7. No eligible grain, at an input where the claim fails. On a table whose single grain
has its boundary flag set, no amount of fuel lets `adjust_boundaries` report anything: the
selection loop keeps drawing. -/
theorem no_eligible_never_reports :
    ¬ ∃ fuel, (adjust_boundaries fuel (fun _ => ()) (fun _ => 0) (Score.val (1 : Int)) (Score.val 1) (fun _ => 0)
      (fun _ => 0) containerAllBoundary).isSome = true := by
  rintro ⟨fuel, h⟩
  have hsel : selectGrain containerAllBoundary.m_Grains (fun _ => 0) fuel 0 = none := by
    apply selectGrain_all_flagged
    intro i g hi hg
    have hlt : i < 2 := by
      by_contra hcon
      have : containerAllBoundary.m_Grains[i]? = none :=
        List.getElem?_eq_none (by simp [containerAllBoundary]; omega)
      rw [this] at hg
      cases hg
    have hi1 : i = 1 := by omega
    subst hi1
    simp only [containerAllBoundary, List.getElem?_cons_succ, List.getElem?_cons_zero,
      Option.some.injEq] at hg
    subst hg
    decide
  simp [adjust_boundaries, step, hsel] at h

/-- Claim C7, as amended. No eligible grain. For a table of at least one grain (two slots) in
which every record from slot 1 on has its boundary flag set, and any stream of draws: every
draw yields a candidate that is a record of the table with the flag set, so the selection loop
rejects it and draws again; with no amount of fuel does the selection return a grain or
`adjust_boundaries` a result. -/
theorem no_eligible_diverges {D E : Type} [LinearOrder E] (diam : Int → D) (rg : Nat → Nat)
    (e0 e1 : Score E) (gs_old : Nat → Int) (raw : Nat → Nat) (m : DataContainer D)
    (hsize : 2 ≤ m.m_Grains.length)
    (hall : ∀ (i : Nat) (g : Grain D), 1 ≤ i → m.m_Grains[i]? = some g → 0 < g.surfacegrain) :
    (∀ k, ∃ g, m.m_Grains[candidate m.m_Grains.length (rg k)]? = some g ∧
      0 < g.surfacegrain) ∧
    (∀ fuel k, selectGrain m.m_Grains rg fuel k = none) ∧
    (∀ fuel, adjust_boundaries fuel diam rg e0 e1 gs_old raw m = none) := by
  refine ⟨?_, selectGrain_all_flagged m.m_Grains rg hall, ?_⟩
  · intro k
    have hlt := candidate_lt m.m_Grains.length (rg k) hsize
    refine ⟨m.m_Grains[candidate m.m_Grains.length (rg k)], ?_, ?_⟩
    · exact List.getElem?_eq_getElem hlt
    · exact hall _ _ (candidate_pos _ _) (List.getElem?_eq_getElem hlt)
  · intro fuel
    have hsel := selectGrain_all_flagged m.m_Grains rg hall fuel 0
    simp [adjust_boundaries, step, hsel]

theorem no_eligible_diverges_witness :
    (∀ k, ∃ g, containerAllBoundary.m_Grains[
        candidate containerAllBoundary.m_Grains.length ((fun _ => 0 : Nat → Nat) k)]? = some g ∧
      0 < g.surfacegrain) ∧
    (∀ fuel k, selectGrain containerAllBoundary.m_Grains (fun _ => 0) fuel k = none) ∧
    (∀ fuel, adjust_boundaries fuel (fun _ => ()) (fun _ => 0) (Score.val (1 : Int)) (Score.val 1) (fun _ => 0)
      (fun _ => 0) containerAllBoundary = none) :=
  no_eligible_diverges (fun _ => ()) (fun _ => 0) (Score.val (1 : Int)) (Score.val 1) (fun _ => 0) (fun _ => 0)
    containerAllBoundary (by decide) (by
      intro i g hi hg
      have hlt : i < 2 := by
        by_contra hcon
        have : containerAllBoundary.m_Grains[i]? = none :=
          List.getElem?_eq_none (by simp [containerAllBoundary]; omega)
        rw [this] at hg
        cases hg
      have hi1 : i = 1 := by omega
      subst hi1
      simp only [containerAllBoundary, List.getElem?_cons_succ, List.getElem?_cons_zero,
        Option.some.injEq] at hg
      subst hg
      decide)

/-- Claim C9. Example scenario, as the specification states it: the sizes after the bookkeeping
of the grow step on grain `A` are not `5` and `59`. -/
theorem example_not_five :
    (flood 4 4 4 1 1 66 0 (startState exampleGrid 21)).map
      (fun st =>
        (bookkeeping st (countGsizes exampleGrid 64 (initGsizes (fun _ => 0) 3)) 1,
         bookkeeping st (countGsizes exampleGrid 64 (initGsizes (fun _ => 0) 3)) 2))
      ≠ some (5, 59) := by
  decide!

/-- Claim C9, as amended. Example scenario. On the 4×4×4 grid in which grain `A = 1` owns exactly
the voxels 21, 22, 25, 26 and grain `B = 2` all others, the grow step whose selected grain is
`A` starts from the nucleus 21, reassigns the sixteen face neighbours of `A` from `B` to `A`,
and leaves after bookkeeping `size[A] = 20` and `size[B] = 44`, with
`size[A] + size[B] = 64`. -/
theorem example_grow_layer :
    selectGrain exampleContainer.m_Grains exampleDraws 66 0 = some (1, 1) ∧
    growthOf (exampleDraws 1) = 1 ∧
    findNucleus exampleGrid 64 66 1 0 = some (1, 21) ∧
    (flood 4 4 4 1 1 66 0 (startState exampleGrid 21)).map
      (fun st =>
        (st.affectedvoxellist,
         bookkeeping st (countGsizes exampleGrid 64 (initGsizes (fun _ => 0) 3)) 1,
         bookkeeping st (countGsizes exampleGrid 64 (initGsizes (fun _ => 0) 3)) 2))
      = some ([5, 17, 20, 37, 6, 18, 23, 38, 9, 24, 29, 41, 10, 27, 30, 42], 20, 44) ∧
    (20 : Int) + 44 = 64 := by
  decide!

/-! ## The erase loop and the worklist, at concrete inputs -/

/-- Claim C11. Records are destroyed only for empty grains, at an input where it fails. On
`containerAdjacentSingles` the committed grow step of grain `1` empties grains `2` and `3` and
leaves the sizes `7, 0, 0, 20`. The erase loop removes the record of grain `2`, then tests
`gsizes[3]` against the record that has moved into slot 3, the one of grain `4`: the table
ends with the records of grain `1` (size 7) and of the empty grain `3` (size 0), and the
record of grain `4`, whose size is 20, is gone. -/
theorem erase_drops_nonempty :
    (step 40 (fun s => s) drawsQuarter (Score.val (1 : Int)) (Score.val 1) gsizesAdjacentSingles
        containerAdjacentSingles).map
      (fun r => (r.bad, (List.range 5).map r.gsizes,
        r.m_Grains.map fun g => (g.surfacegrain, g.equivdiameter)))
      = some (0, [0, 7, 0, 0, 20], [(0, 0), (0, 7), (1, 0)]) := by
  decide!

/-- Claim C17. Membership list has no repeats, at an input where it fails. On the 4×4×4
example the worklist of the grow step on grain `1` starts with the nucleus 21, whose marker is
left clear; when voxel 22 is visited its `-x` neighbour 21 still has the target id and a clear
marker and is enqueued again: the membership list holds 21 twice. -/
theorem nucleus_enqueued_twice :
    findNucleus exampleGrid 64 66 1 0 = some (1, 21) ∧
    (flood 4 4 4 1 1 66 0 (startState exampleGrid 21)).map (fun st => st.voxellist)
      = some [21, 22, 25, 21, 26] := by
  decide!

/-! ## The candidate of one draw -/

/-- Claim C12, as amended. Uniform selection. For a table of `N ≥ 1` grains (`size = N + 1`
slots, at most `2^53`) and a draw `r = k / 2^53` in `[0, 1)`: the candidate lies in `[1, N]`.
It is `1` for every draw with `r + 2^-53 ≤ 2 / (N+1)` and for no draw with `r ≥ 2 / (N+1)`.
It is an id `≥ 2` for every draw with `id / (N+1) ≤ r` and `r + 2^-53 ≤ (id+1) / (N+1)`, and
for no draw with `r + 2^-53 ≤ id / (N+1)` or `r ≥ (id+1) / (N+1)`. So the draws of id `1`
take a length `2/(N+1)` and those of every other id `1/(N+1)`, up to the one draw just below
each cut, which the rounding of the product may move to the next id. -/
theorem candidate_intervals (size k : Nat) (hsize : 2 ≤ size) (hN : size ≤ 2 ^ 53)
    (hk : k < 2 ^ 53) :
    1 ≤ candidate size k ∧ candidate size k ≤ size - 1 ∧
    (k * size + size ≤ 2 * 2 ^ 53 → candidate size k = 1) ∧
    (candidate size k = 1 → k * size < 2 * 2 ^ 53) ∧
    ∀ id, 2 ≤ id →
      (id * 2 ^ 53 ≤ k * size → k * size + size ≤ (id + 1) * 2 ^ 53 →
        candidate size k = id) ∧
      (candidate size k = id →
        id * 2 ^ 53 < k * size + size ∧ k * size < (id + 1) * 2 ^ 53) := by
  have hlt := candidate_lt size k hsize
  have hpos := candidate_pos size k
  refine ⟨hpos, by omega, ?_, ?_, ?_⟩
  · intro h
    have := candidate_le size k 1 hsize hN hk le_rfl h
    omega
  · intro h
    by_contra hc
    have := candidate_ge size k 2 hsize hN hk (by omega)
    omega
  · intro id hid
    refine ⟨?_, ?_⟩
    · intro h1 h2
      have := candidate_ge size k id hsize hN hk h1
      have := candidate_le size k id hsize hN hk (by omega) h2
      omega
    · intro h
      refine ⟨?_, ?_⟩
      · by_contra hc
        have := candidate_le size k (id - 1) hsize hN hk (by omega)
          (by have e : id - 1 + 1 = id := by omega
              rw [e]
              omega)
        omega
      · by_contra hc
        have := candidate_ge size k (id + 1) hsize hN hk (by omega)
        omega

theorem candidate_intervals_witness :
    1 ≤ candidate 3 (2 ^ 52) ∧ candidate 3 (2 ^ 52) ≤ 3 - 1 ∧
    (2 ^ 52 * 3 + 3 ≤ 2 * 2 ^ 53 → candidate 3 (2 ^ 52) = 1) ∧
    (candidate 3 (2 ^ 52) = 1 → 2 ^ 52 * 3 < 2 * 2 ^ 53) ∧
    ∀ id, 2 ≤ id →
      (id * 2 ^ 53 ≤ 2 ^ 52 * 3 → 2 ^ 52 * 3 + 3 ≤ (id + 1) * 2 ^ 53 →
        candidate 3 (2 ^ 52) = id) ∧
      (candidate 3 (2 ^ 52) = id →
        id * 2 ^ 53 < 2 ^ 52 * 3 + 3 ∧ 2 ^ 52 * 3 < (id + 1) * 2 ^ 53) :=
  candidate_intervals 3 (2 ^ 52) (by decide) (by decide) (by decide)

/-- The draw just below the cut `2/3`: its product `2^54 - 1` rounds up to `2^54`. -/
theorem candidate_at_cut : candidate 3 6004799503160661 = 2 := by
  decide

theorem drawsTo_one : drawsTo 3 1 = Finset.range 6004799503160661 := by
  ext k
  simp only [drawsTo, Finset.mem_filter, Finset.mem_range]
  constructor
  · rintro ⟨hk, h⟩
    by_contra hc
    have h2 : 6004799503160661 ≤ k := by omega
    rcases Nat.eq_or_lt_of_le h2 with e | hlt
    · rw [← e, candidate_at_cut] at h
      omega
    · have := candidate_ge 3 k 2 (by decide) (by decide) hk (by omega)
      omega
  · intro h
    have hk : k < 2 ^ 53 := by omega
    refine ⟨hk, ?_⟩
    have := candidate_le 3 k 1 (by decide) (by decide) hk le_rfl (by omega)
    have := candidate_pos 3 k
    omega

theorem drawsTo_two : drawsTo 3 2 = Finset.Ico 6004799503160661 (2 ^ 53) := by
  ext k
  simp only [drawsTo, Finset.mem_filter, Finset.mem_range, Finset.mem_Ico]
  constructor
  · rintro ⟨hk, h⟩
    refine ⟨?_, hk⟩
    by_contra hc
    have := candidate_le 3 k 1 (by decide) (by decide) hk le_rfl (by omega)
    omega
  · rintro ⟨h1, hk⟩
    refine ⟨hk, ?_⟩
    rcases Nat.eq_or_lt_of_le h1 with e | hlt
    · rw [← e]
      exact candidate_at_cut
    · have := candidate_ge 3 k 2 (by decide) (by decide) hk (by omega)
      have := candidate_lt 3 k (by decide)
      omega

/-- Claim C12. Uniform selection, at an input where the claim fails: in a table of two grains
(three slots) the draws that give the candidate `1` are not as many as the draws that give
the candidate `2`; they are about twice as many. -/
theorem candidate_not_uniform : ¬ ((drawsTo 3 1).card = (drawsTo 3 2).card) := by
  rw [drawsTo_one, drawsTo_two, Finset.card_range, Nat.card_Ico]
  decide

/-! ## The grain table after the step: diameters and flags -/

theorem updateDiameters_getElem? {D : Type} (diam : Int → D) (g : Nat → Int)
    (l : List (Grain D)) (i : Nat) :
    (updateDiameters diam g l)[i]? =
      (l[i]?).map fun a => if 1 ≤ i then { a with equivdiameter := diam (g i) } else a := by
  unfold updateDiameters
  rw [List.getElem?_map, List.getElem?_enum]
  cases l[i]? <;> rfl

theorem updateDiameters_twice {D : Type} (diam : Int → D) (g1 g2 : Nat → Int)
    (l : List (Grain D)) :
    updateDiameters diam g2 (updateDiameters diam g1 l) = updateDiameters diam g2 l := by
  apply List.ext_getElem?
  intro i
  rw [updateDiameters_getElem?, updateDiameters_getElem?, updateDiameters_getElem?]
  cases l[i]? with
  | none => rfl
  | some a =>
    simp only [Option.map_some']
    split_ifs <;> rfl

theorem updateDiameters_flags {D : Type} (diam : Int → D) (g : Nat → Int)
    (l : List (Grain D)) :
    (updateDiameters diam g l).map (fun a => a.surfacegrain) = l.map fun a => a.surfacegrain := by
  apply List.ext_getElem?
  intro i
  rw [List.getElem?_map, List.getElem?_map, updateDiameters_getElem?]
  cases l[i]? with
  | none => rfl
  | some a =>
    simp only [Option.map_some']
    split_ifs <;> rfl

theorem eraseLoop_sublist {D : Type} (gsizes : Nat → Int) :
    ∀ (fuel i : Nat) (l l2 : List (Grain D)), eraseLoop gsizes fuel i l = some l2 →
      l2.Sublist l := by
  intro fuel
  induction fuel with
  | zero =>
    intro i l l2 h
    simp [eraseLoop] at h
  | succ fuel ih =>
    intro i l l2 h
    unfold eraseLoop at h
    split_ifs at h with h1 h2
    · exact (ih _ _ _ h).trans (List.eraseIdx_sublist l i)
    · exact ih _ _ _ h
    · simp only [Option.some.injEq] at h
      subst h
      exact List.Sublist.refl _

/-- Claim C13, as amended. Rollback exactness of the diameters. For a grid with `X, Y, Z ≥ 1`
whose ids lie in `[1, G)` and a rejected step: when the selection ends and some voxel carries
an id not below the selected one, `adjust_boundaries` returns and every record from slot 1 on
holds the diameter that `diam` gives for the number of voxels its grain had before the step,
with its other fields untouched; slot 0 is untouched. The table is therefore the table from
before the step exactly when every stored diameter already was the diameter of the grain's
voxel count. -/
theorem rollback_diameters {D E : Type} [LinearOrder E] (fuel : Nat) (diam : Int → D)
    (rg : Nat → Nat) (e0 e1 : Score E) (gs_old : Nat → Int) (raw : Nat → Nat) (m : DataContainer D)
    (s0 k : Nat) (hX : 1 ≤ m.xpoints) (hY : 1 ≤ m.ypoints) (_hZ : 1 ≤ m.zpoints)
    (hids : ∀ i, i < m.totalpoints →
      1 ≤ m.grain_indicies i ∧ m.grain_indicies i < m.m_Grains.length)
    (hsel : selectGrain m.m_Grains rg fuel 0 = some (s0, k))
    (hex : ∃ i, i < m.totalpoints ∧ s0 ≤ m.grain_indicies i)
    (hfuel : m.m_Grains.length * m.totalpoints + m.totalpoints + 2 ≤ fuel)
    (hrej : e1.gt e0) :
    ∃ r, adjust_boundaries fuel diam rg e0 e1 gs_old raw m = some r ∧
      (∀ i, r.m.m_Grains[i]? = (m.m_Grains[i]?).map fun g =>
        if 1 ≤ i then
          { g with equivdiameter := diam (voxelCount m.grain_indicies m.totalpoints i : Int) }
        else g) ∧
      (r.m.m_Grains = m.m_Grains ↔
        ∀ i g, 1 ≤ i → m.m_Grains[i]? = some g →
          g.equivdiameter = diam (voxelCount m.grain_indicies m.totalpoints i : Int)) := by
  obtain ⟨s, n, st, -, -, hinv, -, -, -, hstep⟩ := step_run fuel diam rg e0 e1
    (countGsizes m.grain_indicies m.totalpoints (initGsizes gs_old m.m_Grains.length)) m s0 k
    hX hY hids hsel hex hfuel
  have hres := resolve_reject fuel diam e0 e1
    (countGsizes m.grain_indicies m.totalpoints (initGsizes gs_old m.m_Grains.length))
    m.m_Grains s (growthOf (rg k)) n st hrej
  rw [hres] at hstep
  obtain ⟨-, hgs⟩ := rollback_restores hinv
    (countGsizes m.grain_indicies m.totalpoints (initGsizes gs_old m.m_Grains.length))
  have hpoint : ∀ i, (updateDiameters diam
      (rollback st (bookkeeping st (countGsizes m.grain_indicies m.totalpoints
        (initGsizes gs_old m.m_Grains.length)))).2
      (updateDiameters diam (bookkeeping st (countGsizes m.grain_indicies m.totalpoints
        (initGsizes gs_old m.m_Grains.length))) m.m_Grains))[i]? =
      (m.m_Grains[i]?).map fun g =>
        if 1 ≤ i then
          { g with equivdiameter := diam (voxelCount m.grain_indicies m.totalpoints i : Int) }
        else g := by
    intro i
    rw [updateDiameters_twice, hgs, updateDiameters_getElem?]
    rcases hget : m.m_Grains[i]? with _ | g
    · rfl
    · have hlt : i < m.m_Grains.length := by
        by_contra hcon
        rw [List.getElem?_eq_none (by omega)] at hget
        cases hget
      simp only [Option.map_some', Option.some.injEq]
      split_ifs with h1
      · rw [countGsizes_apply]
        unfold initGsizes
        rw [if_pos ⟨h1, hlt⟩, zero_add]
      · rfl
  refine ⟨_, adjust_run fuel diam rg e0 e1 gs_old raw m _ hstep, hpoint, ?_, ?_⟩
  · intro heq i g h1 hget
    have hp := hpoint i
    simp only [] at heq
    rw [heq, hget, Option.map_some', if_pos h1, Option.some.injEq] at hp
    exact congrArg (fun a : Grain D => a.equivdiameter) hp
  · intro hcons
    apply List.ext_getElem?
    intro i
    simp only []
    rw [hpoint i]
    rcases hget : m.m_Grains[i]? with _ | g
    · rfl
    · simp only [Option.map_some', Option.some.injEq]
      split_ifs with h1
      · rw [← hcons i g h1 hget]
      · rfl

theorem rollback_diameters_witness :
    ∃ r, adjust_boundaries 258 (fun s => s) exampleDraws (Score.val (1 : Int)) (Score.val 2) (fun _ => 0) (fun _ => 0)
        containerStaleDiameters = some r ∧
      (∀ i, r.m.m_Grains[i]? = (containerStaleDiameters.m_Grains[i]?).map fun g =>
        if 1 ≤ i then
          { g with equivdiameter :=
              (voxelCount containerStaleDiameters.grain_indicies
                containerStaleDiameters.totalpoints i : Int) }
        else g) ∧
      (r.m.m_Grains = containerStaleDiameters.m_Grains ↔
        ∀ i g, 1 ≤ i → containerStaleDiameters.m_Grains[i]? = some g →
          g.equivdiameter =
            (voxelCount containerStaleDiameters.grain_indicies
              containerStaleDiameters.totalpoints i : Int)) :=
  rollback_diameters 258 (fun s => s) exampleDraws (Score.val (1 : Int)) (Score.val 2) (fun _ => 0) (fun _ => 0)
    containerStaleDiameters 1 1 (by decide) (by decide) (by decide) (by decide) (by decide)
    ⟨21, by decide, by decide⟩ (by decide) (by decide)

/-- Claim C13. Rollback exactness of the diameters, at an input where the claim fails. The
table of `containerStaleDiameters` arrives with the diameters `5` and `59`; after the rejected
step the records hold `4` and `60`, the diameters of the voxel counts, not the diameters they
held before the step. -/
theorem rollback_rewrites_diameters :
    (containerStaleDiameters.m_Grains.map fun g => g.equivdiameter) = [0, 5, 59] ∧
    (adjust_boundaries 258 (fun s => s) exampleDraws (Score.val (1 : Int)) (Score.val 2) (fun _ => 0) (fun _ => 0)
        containerStaleDiameters).map
      (fun r => (r.bad, r.m.m_Grains.map fun g => g.equivdiameter))
      = some (1, [0, 4, 60]) := by
  decide!

/-- Claim C19, as amended. Boundary flags. For a grid with `X, Y, Z ≥ 1` whose ids lie in
`[1, G)`: when the selection ends and some voxel carries an id not below the selected one,
`adjust_boundaries` returns and every surviving record carries the boundary flag it carried
before the step, in the same order: the flags of the table after the step are the flags of
the table before it with those of the erased records left out. The step never writes a flag,
whatever it did to the voxels on the outer faces. -/
theorem flags_unchanged {D E : Type} [LinearOrder E] (fuel : Nat) (diam : Int → D)
    (rg : Nat → Nat) (e0 e1 : Score E) (gs_old : Nat → Int) (raw : Nat → Nat) (m : DataContainer D)
    (s0 k : Nat) (hX : 1 ≤ m.xpoints) (hY : 1 ≤ m.ypoints) (_hZ : 1 ≤ m.zpoints)
    (hids : ∀ i, i < m.totalpoints →
      1 ≤ m.grain_indicies i ∧ m.grain_indicies i < m.m_Grains.length)
    (hsel : selectGrain m.m_Grains rg fuel 0 = some (s0, k))
    (hex : ∃ i, i < m.totalpoints ∧ s0 ≤ m.grain_indicies i)
    (hfuel : m.m_Grains.length * m.totalpoints + m.totalpoints + 2 ≤ fuel) :
    ∃ r, adjust_boundaries fuel diam rg e0 e1 gs_old raw m = some r ∧
      (r.m.m_Grains.map fun g => g.surfacegrain).Sublist
        (m.m_Grains.map fun g => g.surfacegrain) := by
  obtain ⟨s, n, st, -, -, -, -, -, -, hstep⟩ := step_run fuel diam rg e0 e1
    (countGsizes m.grain_indicies m.totalpoints (initGsizes gs_old m.m_Grains.length)) m s0 k
    hX hY hids hsel hex hfuel
  by_cases hle : e1.le e0
  · obtain ⟨grains2, herase, hres⟩ := resolve_commit fuel diam e0 e1
      (countGsizes m.grain_indicies m.totalpoints (initGsizes gs_old m.m_Grains.length))
      m.m_Grains s (growthOf (rg k)) n st hle
      (by have := Nat.le_mul_of_pos_right m.m_Grains.length
            (by obtain ⟨i, hi, -⟩ := hex; omega : 0 < m.totalpoints)
          omega) (by omega)
    rw [hres] at hstep
    refine ⟨_, adjust_run fuel diam rg e0 e1 gs_old raw m _ hstep, ?_⟩
    simp only []
    have h1 := (eraseLoop_sublist _ _ _ _ _ herase).map (fun g : Grain D => g.surfacegrain)
    rw [updateDiameters_flags] at h1
    exact h1
  · by_cases hlt : e1.gt e0
    · have hres := resolve_reject fuel diam e0 e1
        (countGsizes m.grain_indicies m.totalpoints (initGsizes gs_old m.m_Grains.length))
        m.m_Grains s (growthOf (rg k)) n st hlt
      rw [hres] at hstep
      refine ⟨_, adjust_run fuel diam rg e0 e1 gs_old raw m _ hstep, ?_⟩
      simp only []
      rw [updateDiameters_flags, updateDiameters_flags]
    · have hres := resolve_neither fuel diam e0 e1
        (countGsizes m.grain_indicies m.totalpoints (initGsizes gs_old m.m_Grains.length))
        m.m_Grains s (growthOf (rg k)) n st hle hlt
      rw [hres] at hstep
      refine ⟨_, adjust_run fuel diam rg e0 e1 gs_old raw m _ hstep, ?_⟩
      simp only []
      rw [updateDiameters_flags]

theorem flags_unchanged_witness :
    ∃ r, adjust_boundaries 110 (fun _ => ()) exampleDraws (Score.val (1 : Int)) (Score.val 1) (fun _ => 0) (fun _ => 0)
        containerCentre = some r ∧
      (r.m.m_Grains.map fun g => g.surfacegrain).Sublist
        (containerCentre.m_Grains.map fun g => g.surfacegrain) :=
  flags_unchanged 110 (fun _ => ()) exampleDraws (Score.val (1 : Int)) (Score.val 1) (fun _ => 0) (fun _ => 0)
    containerCentre 1 1 (by decide) (by decide) (by decide) (by decide) (by decide)
    ⟨13, by decide, by decide⟩ (by decide)

/-- Claim C19. Boundary flag stays truthful, at an input where the claim fails. On
`containerCentre` the flags are truthful before the step. The committed grow step of the
interior grain `1` hands it the six face-centre voxels, all of them on outer faces, and its
flag stays `0`: the flags are not truthful after the step. -/
theorem flags_go_stale :
    flagsTruthful containerCentre ∧
    (adjust_boundaries 110 (fun _ => ()) exampleDraws (Score.val (1 : Int)) (Score.val 1) (fun _ => 0) (fun _ => 0)
        containerCentre).map
      (fun r => (r.bad, r.m.m_Grains.length, (List.range 27).map r.m.grain_indicies,
        decide (flagsTruthful r.m)))
      = some (0, 3,
          [2, 2, 2, 2, 1, 2, 2, 2, 2,
           2, 1, 2, 1, 1, 1, 2, 1, 2,
           2, 2, 2, 2, 1, 2, 2, 2, 2], false) := by
  decide!

/-! ## Sizes and voxel counts -/

theorem voxelCount_eq_sum (g : Nat → Nat) (id : Nat) :
    ∀ N, (voxelCount g N id : Int) =
      Finset.sum (Finset.range N) fun i => if g i = id then (1 : Int) else 0 := by
  intro N
  induction N with
  | zero => simp [voxelCount]
  | succ N ih =>
    rw [Finset.sum_range_succ, ← ih]
    unfold voxelCount
    rw [List.range_succ, List.countP_append]
    by_cases h : g N = id
    · simp [h]
    · simp [h]

theorem voxelCount_congr (g1 g2 : Nat → Nat) (N id : Nat) (h : ∀ i, i < N → g1 i = g2 i) :
    voxelCount g1 N id = voxelCount g2 N id := by
  unfold voxelCount
  apply List.countP_congr
  intro i hi
  rw [h i (List.mem_range.1 hi)]

/-- After the worklist loop the bookkeeping turns the voxel counts of the grid the step
started from into the voxel counts of the grid the loop left. -/
theorem bookkeeping_counts {N G : Nat} {grid0 : Nat → Nat} {sel : Nat} {growth : Int}
    {st : StepState} (h : FloodInv N (fun id => id < G) grid0 sel growth st)
    (g : Nat → Int) (id : Nat) (hg : g id = (voxelCount grid0 N id : Int)) :
    bookkeeping st g id = (voxelCount st.grain_indicies N id : Int) := by
  unfold bookkeeping
  rw [bookkeeping_fold, hg, voxelCount_eq_sum, voxelCount_eq_sum]
  have hsum : (st.affectedvoxellist.map fun a =>
      sizeDelta st.reassigned st.grain_indicies a id).sum =
      Finset.sum (Finset.range N) fun i =>
        (if st.grain_indicies i = id then (1 : Int) else 0) -
          (if grid0 i = id then (1 : Int) else 0) := by
    have hmap : (st.affectedvoxellist.map fun a =>
        sizeDelta st.reassigned st.grain_indicies a id) =
        st.affectedvoxellist.map fun i =>
          (if st.grain_indicies i = id then (1 : Int) else 0) -
            (if grid0 i = id then (1 : Int) else 0) := by
      apply List.map_congr_left
      intro a ha
      have hr := (h.mem_iff a).1 ha
      unfold sizeDelta
      rw [if_pos hr, h.orig a hr, Int.toNat_natCast]
      simp only [eq_comm]
    rw [hmap, ← List.sum_toFinset _ h.nodup]
    apply Finset.sum_subset
    · intro a ha
      rw [List.mem_toFinset] at ha
      exact Finset.mem_range.2 (h.aff_lt a ha)
    · intro i _ hi
      rw [List.mem_toFinset] at hi
      have hle : st.reassigned i ≤ 0 := by
        by_contra hcon
        exact hi ((h.mem_iff i).2 (by omega))
      rw [h.keep i hle, sub_self]
  rw [hsum, Finset.sum_sub_distrib]
  ring

/-- Claim C18. Size equals voxel count. For a grid with `X, Y, Z ≥ 1` whose ids lie in
`[1, G)`, with the size table counted from the grid (lines 124-138): when the selection ends
and some voxel carries an id not below the selected one, the step runs to its end, and both
after the bookkeeping and after the accept / reject stage the size `gsizes[id]` of every grain
id `1 .. G-1` is the number of voxels of the grid that carry that id. -/
theorem size_is_count {D E : Type} [LinearOrder E] (fuel : Nat) (diam : Int → D)
    (rg : Nat → Nat) (e0 e1 : Score E) (gs_old : Nat → Int) (m : DataContainer D)
    (s0 k : Nat) (hX : 1 ≤ m.xpoints) (hY : 1 ≤ m.ypoints) (_hZ : 1 ≤ m.zpoints)
    (hids : ∀ i, i < m.totalpoints →
      1 ≤ m.grain_indicies i ∧ m.grain_indicies i < m.m_Grains.length)
    (hsel : selectGrain m.m_Grains rg fuel 0 = some (s0, k))
    (hex : ∃ i, i < m.totalpoints ∧ s0 ≤ m.grain_indicies i)
    (hfuel : m.m_Grains.length * m.totalpoints + m.totalpoints + 2 ≤ fuel) :
    ∃ s n st r,
      findNucleus m.grain_indicies m.totalpoints fuel s0 0 = some (s, n) ∧
      flood m.xpoints m.ypoints m.zpoints s (growthOf (rg k)) fuel 0
        (startState m.grain_indicies n) = some st ∧
      step fuel diam rg e0 e1
        (countGsizes m.grain_indicies m.totalpoints (initGsizes gs_old m.m_Grains.length)) m
        = some r ∧
      (∀ id, 1 ≤ id → id < m.m_Grains.length →
        bookkeeping st
          (countGsizes m.grain_indicies m.totalpoints (initGsizes gs_old m.m_Grains.length)) id
          = (voxelCount st.grain_indicies m.totalpoints id : Int)) ∧
      (∀ id, 1 ≤ id → id < m.m_Grains.length →
        r.gsizes id = (voxelCount r.grain_indicies m.totalpoints id : Int)) := by
  obtain ⟨s, n, st, hnuc, hfl, hinv, -, -, -, hstep⟩ := step_run fuel diam rg e0 e1
    (countGsizes m.grain_indicies m.totalpoints (initGsizes gs_old m.m_Grains.length)) m s0 k
    hX hY hids hsel hex hfuel
  have hstart : ∀ id, 1 ≤ id → id < m.m_Grains.length →
      countGsizes m.grain_indicies m.totalpoints (initGsizes gs_old m.m_Grains.length) id =
        (voxelCount m.grain_indicies m.totalpoints id : Int) := by
    intro id h1 h2
    rw [countGsizes_apply]
    unfold initGsizes
    rw [if_pos ⟨h1, h2⟩, zero_add]
  have hbook : ∀ id, 1 ≤ id → id < m.m_Grains.length →
      bookkeeping st
        (countGsizes m.grain_indicies m.totalpoints (initGsizes gs_old m.m_Grains.length)) id
        = (voxelCount st.grain_indicies m.totalpoints id : Int) :=
    fun id h1 h2 => bookkeeping_counts hinv _ id (hstart id h1 h2)
  by_cases hle : e1.le e0
  · obtain ⟨grains2, -, hres⟩ := resolve_commit fuel diam e0 e1
      (countGsizes m.grain_indicies m.totalpoints (initGsizes gs_old m.m_Grains.length))
      m.m_Grains s (growthOf (rg k)) n st hle
      (by have := Nat.le_mul_of_pos_right m.m_Grains.length
            (by obtain ⟨i, hi, -⟩ := hex; omega : 0 < m.totalpoints)
          omega) (by omega)
    rw [hres] at hstep
    exact ⟨s, n, st, _, hnuc, hfl, hstep, hbook, hbook⟩
  · by_cases hlt : e1.gt e0
    · have hres := resolve_reject fuel diam e0 e1
        (countGsizes m.grain_indicies m.totalpoints (initGsizes gs_old m.m_Grains.length))
        m.m_Grains s (growthOf (rg k)) n st hlt
      rw [hres] at hstep
      obtain ⟨hgrid, hgs⟩ := rollback_restores hinv
        (countGsizes m.grain_indicies m.totalpoints (initGsizes gs_old m.m_Grains.length))
      refine ⟨s, n, st, _, hnuc, hfl, hstep, hbook, ?_⟩
      intro id h1 h2
      simp only []
      rw [hgs, hstart id h1 h2, voxelCount_congr _ m.grain_indicies _ _ (fun i _ => hgrid i)]
    · have hres := resolve_neither fuel diam e0 e1
        (countGsizes m.grain_indicies m.totalpoints (initGsizes gs_old m.m_Grains.length))
        m.m_Grains s (growthOf (rg k)) n st hle hlt
      rw [hres] at hstep
      exact ⟨s, n, st, _, hnuc, hfl, hstep, hbook, hbook⟩

theorem size_is_count_witness :
    ∃ s n st r,
      findNucleus exampleContainer.grain_indicies exampleContainer.totalpoints 258 1 0
        = some (s, n) ∧
      flood exampleContainer.xpoints exampleContainer.ypoints exampleContainer.zpoints s
        (growthOf (exampleDraws 1)) 258 0
        (startState exampleContainer.grain_indicies n) = some st ∧
      step 258 (fun _ => ()) exampleDraws (Score.val (1 : Int)) (Score.val 1)
        (countGsizes exampleContainer.grain_indicies exampleContainer.totalpoints
          (initGsizes (fun _ => 0) exampleContainer.m_Grains.length)) exampleContainer
        = some r ∧
      (∀ id, 1 ≤ id → id < exampleContainer.m_Grains.length →
        bookkeeping st
          (countGsizes exampleContainer.grain_indicies exampleContainer.totalpoints
            (initGsizes (fun _ => 0) exampleContainer.m_Grains.length)) id
          = (voxelCount st.grain_indicies exampleContainer.totalpoints id : Int)) ∧
      (∀ id, 1 ≤ id → id < exampleContainer.m_Grains.length →
        r.gsizes id = (voxelCount r.grain_indicies exampleContainer.totalpoints id : Int)) :=
  size_is_count 258 (fun _ => ()) exampleDraws (Score.val (1 : Int)) (Score.val 1) (fun _ => 0)
    exampleContainer 1 1 (by decide) (by decide) (by decide) (by decide) (by decide)
    ⟨21, by decide, by decide⟩ (by decide)

/-! ## What the worklist loop computes -/

theorem Reach.sel {X Y Z : Nat} {grid0 : Nat → Nat} {sel nucleus v : Nat}
    (h : Reach X Y Z grid0 sel nucleus v) : grid0 v = sel := by
  cases h with
  | base h0 => exact h0
  | step _ _ h2 => exact h2

/-- The five ways the body of the `j` loop can go: the direction leaves the domain, the
neighbour is enqueued, the neighbour is grown into, the voxel itself is shrunk away, or
nothing is written. -/
theorem visit_cases (X Y Z sel : Nat) (growth : Int) (index : Nat) (st : StepState) (j : Nat) :
    (good X Y Z index j ≠ 1 ∧ visit X Y Z sel growth index st j = st) ∨
    (good X Y Z index j = 1 ∧
      st.grain_indicies (neighpoint X Y index j).toNat = sel ∧
      st.reassigned (neighpoint X Y index j).toNat = 0 ∧
      visit X Y Z sel growth index st j =
        { st with
          voxellist := st.voxellist ++ [(neighpoint X Y index j).toNat]
          reassigned := Function.update st.reassigned (neighpoint X Y index j).toNat (-1) }) ∨
    (good X Y Z index j = 1 ∧
      st.grain_indicies (neighpoint X Y index j).toNat ≠ sel ∧
      st.grain_indicies index = sel ∧ growth = 1 ∧
      st.reassigned (neighpoint X Y index j).toNat ≤ 0 ∧
      visit X Y Z sel growth index st j =
        { st with
          reassigned := Function.update st.reassigned (neighpoint X Y index j).toNat
            (st.grain_indicies (neighpoint X Y index j).toNat : Int)
          grain_indicies := Function.update st.grain_indicies (neighpoint X Y index j).toNat
            (st.grain_indicies index)
          affectedvoxellist := st.affectedvoxellist ++ [(neighpoint X Y index j).toNat] }) ∨
    (good X Y Z index j = 1 ∧
      st.grain_indicies (neighpoint X Y index j).toNat ≠ sel ∧
      st.grain_indicies index = sel ∧ growth = -1 ∧
      st.reassigned (neighpoint X Y index j).toNat ≤ 0 ∧
      visit X Y Z sel growth index st j =
        { st with
          reassigned := Function.update st.reassigned index (st.grain_indicies index : Int)
          grain_indicies := Function.update st.grain_indicies index
            (st.grain_indicies (neighpoint X Y index j).toNat)
          affectedvoxellist := st.affectedvoxellist ++ [index] }) ∨
    (good X Y Z index j = 1 ∧
      ¬ (st.grain_indicies (neighpoint X Y index j).toNat = sel ∧
        st.reassigned (neighpoint X Y index j).toNat = 0) ∧
      ¬ (st.grain_indicies (neighpoint X Y index j).toNat ≠ sel ∧
        st.grain_indicies index = sel ∧ (growth = 1 ∨ growth = -1) ∧
        st.reassigned (neighpoint X Y index j).toNat ≤ 0) ∧
      visit X Y Z sel growth index st j = st) := by
  by_cases hg : good X Y Z index j = 1
  · right
    by_cases he : st.grain_indicies (neighpoint X Y index j).toNat = sel ∧
        st.reassigned (neighpoint X Y index j).toNat = 0
    · left
      refine ⟨hg, he.1, he.2, ?_⟩
      unfold visit
      rw [if_pos hg]
      simp only []
      have hen : enqueue sel (neighpoint X Y index j).toNat st =
          { st with
            voxellist := st.voxellist ++ [(neighpoint X Y index j).toNat]
            reassigned := Function.update st.reassigned (neighpoint X Y index j).toNat (-1) } := by
        unfold enqueue
        rw [if_pos he]
      rw [hen]
      simp only []
      rw [if_neg]
      intro hc
      exact hc.1 he.1
    · right
      have hen : enqueue sel (neighpoint X Y index j).toNat st = st := by
        unfold enqueue
        rw [if_neg he]
      by_cases hc : st.grain_indicies (neighpoint X Y index j).toNat ≠ sel ∧
          st.grain_indicies index = sel
      · by_cases h1 : growth = 1 ∧ st.reassigned (neighpoint X Y index j).toNat ≤ 0
        · left
          refine ⟨hg, hc.1, hc.2, h1.1, h1.2, ?_⟩
          unfold visit
          rw [if_pos hg]
          simp only []
          rw [hen, if_pos hc]
          unfold grow
          rw [if_pos h1]
          unfold shrink
          rw [if_neg]
          intro hcc
          have := hcc.1
          have := h1.1
          omega
        · right
          have hgr : grow growth index (neighpoint X Y index j).toNat st = st := by
            unfold grow
            rw [if_neg h1]
          by_cases h2 : growth = -1 ∧ st.reassigned (neighpoint X Y index j).toNat ≤ 0
          · left
            refine ⟨hg, hc.1, hc.2, h2.1, h2.2, ?_⟩
            unfold visit
            rw [if_pos hg]
            simp only []
            rw [hen, if_pos hc, hgr]
            unfold shrink
            rw [if_pos h2]
          · right
            refine ⟨hg, he, ?_, ?_⟩
            · rintro ⟨-, -, h3 | h3, h4⟩
              · exact h1 ⟨h3, h4⟩
              · exact h2 ⟨h3, h4⟩
            · unfold visit
              rw [if_pos hg]
              simp only []
              rw [hen, if_pos hc, hgr]
              unfold shrink
              rw [if_neg h2]
      · right
        right
        refine ⟨hg, he, ?_, ?_⟩
        · rintro ⟨h3, h4, -, -⟩
          exact hc ⟨h3, h4⟩
        · unfold visit
          rw [if_pos hg]
          simp only []
          rw [hen, if_neg hc]
  · left
    refine ⟨hg, ?_⟩
    unfold visit
    rw [if_neg hg]

theorem visit_mark {X Y Z : Nat} {Q : Nat → Prop} {grid0 : Nat → Nat} {sel : Nat}
    {growth : Int} {nucleus : Nat} {st : StepState} (index j : Nat)
    (hF : FloodInv (X * Y * Z) Q grid0 sel growth st)
    (hM : MarkInv X Y Z grid0 sel growth nucleus st) (hmem : index ∈ st.voxellist)
    (hj : j < 6) :
    MarkInv X Y Z grid0 sel growth nucleus (visit X Y Z sel growth index st j) := by
  rcases visit_cases X Y Z sel growth index st j with
    ⟨-, hv⟩ | ⟨hg, hsel, hr, hv⟩ | ⟨hg, hne, hidx, hgr, hr, hv⟩ |
    ⟨hg, hne, hidx, hgr, hr, hv⟩ | ⟨-, -, -, hv⟩
  · rw [hv]
    exact hM
  · rw [hv]
    refine ⟨?_, ?_, ?_, hM.aff_grow, ?_, hM.keep_sel⟩
    · exact List.mem_append_left _ hM.head
    · intro v hv2
      simp only [List.mem_append, List.mem_singleton] at hv2
      rcases hv2 with hv2 | hv2
      · exact hM.reach v hv2
      · subst hv2
        refine Reach.step (hM.reach index hmem) ⟨j, hj, hg, rfl⟩ ?_
        rw [← hF.keep _ (by omega)]
        exact hsel
    · intro v hv2
      simp only [List.mem_append, List.mem_singleton]
      rcases eq_or_ne v (neighpoint X Y index j).toNat with rfl | hvn
      · exact Or.inr rfl
      · simp only [Function.update_noteq hvn] at hv2
        exact Or.inl (hM.neg_mem v hv2)
    · intro hgm a ha
      exact List.mem_append_left _ (hM.aff_shrink hgm a ha)
  · rw [hv]
    have hkeep := hF.keep _ hr
    refine ⟨hM.head, hM.reach, ?_, ?_, ?_, ?_⟩
    · intro v hv2
      rcases eq_or_ne v (neighpoint X Y index j).toNat with rfl | hvn
      · simp only [Function.update_same] at hv2
        omega
      · simp only [Function.update_noteq hvn] at hv2
        exact hM.neg_mem v hv2
    · intro _ a ha
      simp only [List.mem_append, List.mem_singleton] at ha
      rcases eq_or_ne a (neighpoint X Y index j).toNat with rfl | han
      · simp only [Function.update_same]
        refine ⟨?_, hidx⟩
        rw [← hkeep]
        exact hne
      · simp only [Function.update_noteq han]
        rcases ha with ha | ha
        · exact hM.aff_grow hgr a ha
        · exact absurd ha han
    · intro hgm
      omega
    · intro _ v hv2
      rcases eq_or_ne v (neighpoint X Y index j).toNat with rfl | hvn
      · simp only [Function.update_same]
        exact hidx
      · simp only [Function.update_noteq hvn]
        exact hM.keep_sel hgr v hv2
  · rw [hv]
    refine ⟨hM.head, hM.reach, ?_, ?_, ?_, ?_⟩
    · intro v hv2
      rcases eq_or_ne v index with rfl | hvn
      · simp only [Function.update_same] at hv2
        omega
      · simp only [Function.update_noteq hvn] at hv2
        exact hM.neg_mem v hv2
    · intro hgm
      omega
    · intro _ a ha
      simp only [List.mem_append, List.mem_singleton] at ha
      rcases ha with ha | ha
      · exact hM.aff_shrink hgr a ha
      · subst ha
        exact hmem
    · intro hgm
      omega
  · rw [hv]
    exact hM

theorem ScanInv.mono {X Y Z : Nat} {grid0 : Nat → Nat} {sel : Nat} {growth : Int}
    {Done Done2 : Nat → Nat → Prop} {st : StepState}
    (h : ScanInv X Y Z grid0 sel growth Done st) (hD : ∀ u j, Done2 u j → Done u j) :
    ScanInv X Y Z grid0 sel growth Done2 st :=
  ⟨fun u j hd => h.closed u j (hD u j hd), fun hg u j hd => h.grown hg u j (hD u j hd),
    fun hg u j hd => h.shrunk hg u j (hD u j hd), h.aff_nb, h.aff_first⟩

theorem visit_scan {X Y Z : Nat} {Q : Nat → Prop} {grid0 : Nat → Nat} {sel : Nat}
    {growth : Int} {nucleus : Nat} {Done : Nat → Nat → Prop} {st : StepState} (index j : Nat)
    (hgrowth : growth = 1 ∨ growth = -1)
    (hF : FloodInv (X * Y * Z) Q grid0 sel growth st)
    (hM : MarkInv X Y Z grid0 sel growth nucleus st)
    (hS : ScanInv X Y Z grid0 sel growth Done st) (hmem : index ∈ st.voxellist)
    (hj : j < 6) (hprev : ∀ j2, j2 < j → Done index j2) (Done2 : Nat → Nat → Prop)
    (hD : ∀ u j2, Done2 u j2 → Done u j2 ∨ (u = index ∧ j2 = j)) :
    ScanInv X Y Z grid0 sel growth Done2 (visit X Y Z sel growth index st j) := by
  have hisel : grid0 index = sel := (hM.reach index hmem).sel
  rcases visit_cases X Y Z sel growth index st j with
    ⟨hg, hv⟩ | ⟨hg, hsel, hr, hv⟩ | ⟨hg, hne, hidx, hgr, hr, hv⟩ |
    ⟨hg, hne, hidx, hgr, hr, hv⟩ | ⟨hg, he, hn, hv⟩
  · -- the direction leaves the domain
    rw [hv]
    refine ⟨?_, ?_, ?_, hS.aff_nb, hS.aff_first⟩
    · intro u j2 hd hgood
      rcases hD u j2 hd with hd | ⟨rfl, rfl⟩
      · exact hS.closed u j2 hd hgood
      · exact absurd hgood hg
    · intro hgm u j2 hd hgood
      rcases hD u j2 hd with hd | ⟨rfl, rfl⟩
      · exact hS.grown hgm u j2 hd hgood
      · exact absurd hgood hg
    · intro hgm u j2 hd hgood
      rcases hD u j2 hd with hd | ⟨rfl, rfl⟩
      · exact hS.shrunk hgm u j2 hd hgood
      · exact absurd hgood hg
  · -- the neighbour is enqueued
    rw [hv]
    have hk : grid0 (neighpoint X Y index j).toNat = sel := by
      rw [← hF.keep _ (by omega)]
      exact hsel
    refine ⟨?_, ?_, ?_, ?_, hS.aff_first⟩
    · intro u j2 hd hgood hs
      simp only [List.mem_append, List.mem_singleton]
      rcases hD u j2 hd with hd | ⟨rfl, rfl⟩
      · exact Or.inl (hS.closed u j2 hd hgood hs)
      · exact Or.inr rfl
    · intro hgm u j2 hd hgood
      rcases hD u j2 hd with hd | ⟨rfl, rfl⟩
      · exact hS.grown hgm u j2 hd hgood
      · exact hsel
    · intro hgm u j2 hd hgood hs
      rcases hD u j2 hd with hd | ⟨rfl, rfl⟩
      · exact hS.shrunk hgm u j2 hd hgood hs
      · exact absurd hk hs
    · intro hgm a ha
      obtain ⟨u, hu, hadj⟩ := hS.aff_nb hgm a ha
      exact ⟨u, List.mem_append_left _ hu, hadj⟩
  · -- the neighbour is grown into
    rw [hv]
    refine ⟨?_, ?_, ?_, ?_, ?_⟩
    · intro u j2 hd hgood hs
      rcases hD u j2 hd with hd | ⟨rfl, rfl⟩
      · exact hS.closed u j2 hd hgood hs
      · exact absurd (hM.keep_sel hgr _ hs) hne
    · intro hgm u j2 hd hgood
      rcases eq_or_ne (neighpoint X Y u j2).toNat (neighpoint X Y index j).toNat with heq | hneq
      · rw [heq]
        simp only [Function.update_same]
        exact hidx
      · simp only [Function.update_noteq hneq]
        rcases hD u j2 hd with hd | ⟨rfl, rfl⟩
        · exact hS.grown hgm u j2 hd hgood
        · exact absurd rfl hneq
    · intro hgm
      omega
    · intro hgm a ha
      simp only [List.mem_append, List.mem_singleton] at ha
      rcases ha with ha | ha
      · exact hS.aff_nb hgm a ha
      · subst ha
        exact ⟨index, hmem, j, hj, hg, rfl⟩
    · intro hgm
      omega
  · -- the voxel itself is shrunk away
    rw [hv]
    have hk : st.grain_indicies (neighpoint X Y index j).toNat =
        grid0 (neighpoint X Y index j).toNat := hF.keep _ hr
    have hnotin : index ∉ st.affectedvoxellist := fun hm => hF.shrunk hgr index hm hidx
    refine ⟨?_, ?_, ?_, ?_, ?_⟩
    · intro u j2 hd hgood hs
      rcases hD u j2 hd with hd | ⟨rfl, rfl⟩
      · exact hS.closed u j2 hd hgood hs
      · rw [hk] at hne
        exact absurd hs hne
    · intro hgm
      omega
    · intro _ u j2 hd hgood hs
      rcases eq_or_ne u index with rfl | hun
      · simp only [Function.update_same]
        exact hne
      · simp only [Function.update_noteq hun]
        rcases hD u j2 hd with hd | ⟨rfl, rfl⟩
        · exact hS.shrunk hgr u j2 hd hgood hs
        · exact absurd rfl hun
    · intro hgm
      omega
    · intro _ a ha
      simp only [List.mem_append, List.mem_singleton] at ha
      rcases eq_or_ne a index with rfl | han
      · simp only [Function.update_same]
        refine ⟨j, hj, hg, ?_, hk, ?_⟩
        · rw [← hk]
          exact hne
        · intro j2 hj2 hgood2
          by_contra hcon
          exact hS.shrunk hgr a j2 (hprev j2 hj2) hgood2 hcon hidx
      · simp only [Function.update_noteq han]
        rcases ha with ha | ha
        · exact hS.aff_first hgr a ha
        · exact absurd ha han
  · -- nothing is written
    rw [hv]
    refine ⟨?_, ?_, ?_, hS.aff_nb, hS.aff_first⟩
    · intro u j2 hd hgood hs
      rcases hD u j2 hd with hd | ⟨rfl, rfl⟩
      · exact hS.closed u j2 hd hgood hs
      · rcases lt_trichotomy (st.reassigned (neighpoint X Y u j2).toNat) 0 with h1 | h1 | h1
        · exact hM.neg_mem _ h1
        · exfalso
          apply he
          refine ⟨?_, h1⟩
          rw [hF.keep _ (by omega)]
          exact hs
        · have hin := (hF.mem_iff _).2 h1
          rcases hgrowth with hgm | hgm
          · exact absurd hs (hM.aff_grow hgm _ hin).1
          · exact hM.aff_shrink hgm _ hin
    · intro hgm u j2 hd hgood
      rcases hD u j2 hd with hd | ⟨rfl, rfl⟩
      · exact hS.grown hgm u j2 hd hgood
      · by_contra hcon
        have hix : st.grain_indicies u = sel := hM.keep_sel hgm u hisel
        have hpos : 0 < st.reassigned (neighpoint X Y u j2).toNat := by
          by_contra hle
          exact hn ⟨hcon, hix, Or.inl hgm, by omega⟩
        exact hcon (hM.aff_grow hgm _ ((hF.mem_iff _).2 hpos)).2
    · intro hgm u j2 hd hgood hs
      rcases hD u j2 hd with hd | ⟨rfl, rfl⟩
      · exact hS.shrunk hgm u j2 hd hgood hs
      · intro hix
        have hle : st.reassigned (neighpoint X Y u j2).toNat ≤ 0 := by
          by_contra hpos
          have hin := (hF.mem_iff (neighpoint X Y u j2).toNat).2 (by omega)
          exact hs (hM.reach _ (hM.aff_shrink hgm _ hin)).sel
        apply hn
        refine ⟨?_, hix, Or.inr hgm, hle⟩
        rw [hF.keep _ hle]
        exact hs

theorem visit_voxellist (X Y Z sel : Nat) (growth : Int) (index : Nat) (st : StepState)
    (j : Nat) : ∃ l, (visit X Y Z sel growth index st j).voxellist = st.voxellist ++ l := by
  rcases visit_cases X Y Z sel growth index st j with
    ⟨-, hv⟩ | ⟨-, -, -, hv⟩ | ⟨-, -, -, -, -, hv⟩ | ⟨-, -, -, -, -, hv⟩ | ⟨-, -, -, hv⟩
  · exact ⟨[], by rw [hv, List.append_nil]⟩
  · exact ⟨[(neighpoint X Y index j).toNat], by rw [hv]⟩
  · exact ⟨[], by rw [hv, List.append_nil]⟩
  · exact ⟨[], by rw [hv, List.append_nil]⟩
  · exact ⟨[], by rw [hv, List.append_nil]⟩

theorem processVoxel_voxellist (X Y Z sel : Nat) (growth : Int) (index : Nat)
    (st : StepState) :
    ∃ l, (processVoxel X Y Z sel growth index st).voxellist = st.voxellist ++ l := by
  have hr : List.range 6 = [0, 1, 2, 3, 4, 5] := by decide
  unfold processVoxel
  rw [hr]
  simp only [List.foldl]
  obtain ⟨l0, h0⟩ := visit_voxellist X Y Z sel growth index st 0
  obtain ⟨l1, h1⟩ := visit_voxellist X Y Z sel growth index _ 1
  obtain ⟨l2, h2⟩ := visit_voxellist X Y Z sel growth index _ 2
  obtain ⟨l3, h3⟩ := visit_voxellist X Y Z sel growth index _ 3
  obtain ⟨l4, h4⟩ := visit_voxellist X Y Z sel growth index _ 4
  obtain ⟨l5, h5⟩ := visit_voxellist X Y Z sel growth index _ 5
  refine ⟨l0 ++ l1 ++ l2 ++ l3 ++ l4 ++ l5, ?_⟩
  rw [h5, h4, h3, h2, h1, h0]
  simp only [List.append_assoc]

theorem visit_full {X Y Z : Nat} {Q : Nat → Prop} {grid0 : Nat → Nat} {sel : Nat}
    {growth : Int} {nucleus : Nat} {Done : Nat → Nat → Prop} {st : StepState} (index j : Nat)
    (hX : 1 ≤ X) (hY : 1 ≤ Y) (hgrowth : growth = 1 ∨ growth = -1)
    (h : Full X Y Z Q grid0 sel growth nucleus Done st) (hmem : index ∈ st.voxellist)
    (hj : j < 6) (hprev : ∀ j2, j2 < j → Done index j2) (Done2 : Nat → Nat → Prop)
    (hD : ∀ u j2, Done2 u j2 → Done u j2 ∨ (u = index ∧ j2 = j)) :
    Full X Y Z Q grid0 sel growth nucleus Done2 (visit X Y Z sel growth index st j) ∧
      index ∈ (visit X Y Z sel growth index st j).voxellist := by
  obtain ⟨hF, hM, hS⟩ := h
  have hb : Bounded (X * Y * Z) Q grid0 sel growth
      (zeros (X * Y * Z) st.reassigned + st.voxellist.length) st.voxellist.length st :=
    ⟨hF, le_refl _, le_refl _⟩
  refine ⟨⟨(visit_bounded index j hX hY hb (hF.vox_lt index hmem) hj).1,
    visit_mark index j hF hM hmem hj,
    visit_scan index j hgrowth hF hM hS hmem hj hprev Done2 hD⟩, ?_⟩
  obtain ⟨l, hl⟩ := visit_voxellist X Y Z sel growth index st j
  rw [hl]
  exact List.mem_append_left _ hmem

theorem processVoxel_full {X Y Z : Nat} {Q : Nat → Prop} {grid0 : Nat → Nat} {sel : Nat}
    {growth : Int} {nucleus : Nat} {Done : Nat → Nat → Prop} {st : StepState} (index : Nat)
    (hX : 1 ≤ X) (hY : 1 ≤ Y) (hgrowth : growth = 1 ∨ growth = -1)
    (h : Full X Y Z Q grid0 sel growth nucleus Done st) (hmem : index ∈ st.voxellist)
    (Done2 : Nat → Nat → Prop)
    (hD : ∀ u j2, Done2 u j2 → Done u j2 ∨ (u = index ∧ j2 < 6)) :
    Full X Y Z Q grid0 sel growth nucleus Done2 (processVoxel X Y Z sel growth index st) := by
  have hr : List.range 6 = [0, 1, 2, 3, 4, 5] := by decide
  unfold processVoxel
  rw [hr]
  simp only [List.foldl]
  have hstart : Full X Y Z Q grid0 sel growth nucleus
      (fun u j2 => Done u j2 ∨ (u = index ∧ j2 < 0)) st :=
    ⟨h.1, h.2.1, h.2.2.mono (fun u j2 hd => by
      rcases hd with hd | ⟨-, hlt⟩
      · exact hd
      · omega)⟩
  have key : ∀ (k : Nat) (s : StepState), k < 6 →
      Full X Y Z Q grid0 sel growth nucleus (fun u j2 => Done u j2 ∨ (u = index ∧ j2 < k)) s →
      index ∈ s.voxellist →
      Full X Y Z Q grid0 sel growth nucleus
        (fun u j2 => Done u j2 ∨ (u = index ∧ j2 < k + 1)) (visit X Y Z sel growth index s k) ∧
      index ∈ (visit X Y Z sel growth index s k).voxellist := by
    intro k s hk hs hm
    apply visit_full index k hX hY hgrowth hs hm hk
    · intro j2 hj2
      exact Or.inr ⟨rfl, hj2⟩
    · intro u j2 hd
      rcases hd with hd | ⟨hu, hlt⟩
      · exact Or.inl (Or.inl hd)
      · rcases Nat.lt_or_ge j2 k with h1 | h1
        · exact Or.inl (Or.inr ⟨hu, h1⟩)
        · exact Or.inr ⟨hu, by omega⟩
  obtain ⟨f0, m0⟩ := key 0 _ (by decide) hstart hmem
  obtain ⟨f1, m1⟩ := key 1 _ (by decide) f0 m0
  obtain ⟨f2, m2⟩ := key 2 _ (by decide) f1 m1
  obtain ⟨f3, m3⟩ := key 3 _ (by decide) f2 m2
  obtain ⟨f4, m4⟩ := key 4 _ (by decide) f3 m3
  obtain ⟨f5, -⟩ := key 5 _ (by decide) f4 m4
  exact ⟨f5.1, f5.2.1, f5.2.2.mono hD⟩

/-- When the worklist loop ends, the three invariants hold with all six directions of every
listed voxel visited. -/
theorem flood_full {X Y Z : Nat} {Q : Nat → Prop} {grid0 : Nat → Nat} {sel : Nat}
    {growth : Int} {nucleus : Nat} (hX : 1 ≤ X) (hY : 1 ≤ Y)
    (hgrowth : growth = 1 ∨ growth = -1) :
    ∀ (fuel i : Nat) (st st2 : StepState),
      Full X Y Z Q grid0 sel growth nucleus (doneUpTo i st) st → i ≤ st.voxellist.length →
      flood X Y Z sel growth fuel i st = some st2 →
      Full X Y Z Q grid0 sel growth nucleus (fun u j => j < 6 ∧ u ∈ st2.voxellist) st2 := by
  intro fuel
  induction fuel with
  | zero =>
    intro i st st2 _ _ h
    simp [flood] at h
  | succ fuel ih =>
    intro i st st2 hfull hi h
    unfold flood at h
    rcases hget : st.voxellist[i]? with _ | index
    · rw [hget] at h
      simp only [Option.some.injEq] at h
      subst h
      refine ⟨hfull.1, hfull.2.1, hfull.2.2.mono ?_⟩
      rintro u j ⟨hj, hu⟩
      obtain ⟨p, hp⟩ := List.mem_iff_getElem?.1 hu
      refine ⟨hj, p, ?_, hp⟩
      have hlen : st.voxellist.length ≤ i := by
        by_contra hcon
        rw [List.getElem?_eq_getElem (by omega)] at hget
        cases hget
      obtain ⟨hlt, -⟩ := List.getElem?_eq_some.1 hp
      omega
    · rw [hget] at h
      simp only [] at h
      have hlt : i < st.voxellist.length := (List.getElem?_eq_some.1 hget).1
      have hmem : index ∈ st.voxellist := List.getElem?_mem hget
      obtain ⟨l, hl⟩ := processVoxel_voxellist X Y Z sel growth index st
      apply ih (i + 1) _ st2 _ _ h
      · apply processVoxel_full index hX hY hgrowth hfull hmem
        rintro u j2 ⟨hj2, p, hp, hpu⟩
        rw [hl, List.getElem?_append_left (by omega)] at hpu
        rcases Nat.lt_or_ge p i with h1 | h1
        · exact Or.inl ⟨hj2, p, h1, hpu⟩
        · have hpi : p = i := by omega
          subst hpi
          rw [hget] at hpu
          simp only [Option.some.injEq] at hpu
          exact Or.inr ⟨hpu.symm, hj2⟩
      · rw [hl, List.length_append]
        omega

theorem startState_full (X Y Z : Nat) (Q : Nat → Prop) (grid0 : Nat → Nat) (sel : Nat)
    (growth : Int) (nucleus : Nat) (hn : nucleus < X * Y * Z) (hsel : grid0 nucleus = sel)
    (hids : ∀ i, i < X * Y * Z → 1 ≤ grid0 i ∧ Q (grid0 i)) :
    Full X Y Z Q grid0 sel growth nucleus (doneUpTo 0 (startState grid0 nucleus))
      (startState grid0 nucleus) := by
  refine ⟨startState_inv _ Q grid0 sel growth nucleus hn hids, ?_, ?_⟩
  · refine ⟨?_, ?_, ?_, ?_, ?_, ?_⟩
    · simp [startState]
    · intro v hv
      simp only [startState, List.mem_singleton] at hv
      subst hv
      exact Reach.base hsel
    · intro v hv
      simp [startState] at hv
    · intro _ a ha
      simp [startState] at ha
    · intro _ a ha
      simp [startState] at ha
    · intro _ v hv
      exact hv
  · refine ⟨?_, ?_, ?_, ?_, ?_⟩
    · rintro u j ⟨-, p, hp, -⟩
      omega
    · rintro _ u j ⟨-, p, hp, -⟩
      omega
    · rintro _ u j ⟨-, p, hp, -⟩
      omega
    · intro _ a ha
      simp [startState] at ha
    · intro _ a ha
      simp [startState] at ha

/-- The worklist loop of a step that starts at a nucleus carrying the target id ends, and the
state it leaves satisfies the three invariants with every listed voxel fully visited. -/
theorem flood_spec {X Y Z : Nat} (Q : Nat → Prop) (grid0 : Nat → Nat) (sel : Nat)
    (growth : Int) (fuel nucleus : Nat) (hX : 1 ≤ X) (hY : 1 ≤ Y)
    (hgrowth : growth = 1 ∨ growth = -1) (hn : nucleus < X * Y * Z)
    (hsel : grid0 nucleus = sel) (hids : ∀ i, i < X * Y * Z → 1 ≤ grid0 i ∧ Q (grid0 i))
    (hfuel : X * Y * Z + 2 ≤ fuel) :
    ∃ st, flood X Y Z sel growth fuel 0 (startState grid0 nucleus) = some st ∧
      Full X Y Z Q grid0 sel growth nucleus (fun u j => j < 6 ∧ u ∈ st.voxellist) st := by
  obtain ⟨st, hst, -⟩ := flood_start Q grid0 sel growth fuel nucleus hX hY hn hids hfuel
  exact ⟨st, hst, flood_full hX hY hgrowth fuel 0 _ st
    (startState_full X Y Z Q grid0 sel growth nucleus hn hsel hids) (Nat.zero_le _) hst⟩

/-- At the end of the worklist loop the membership list holds exactly the reachable voxels. -/
theorem mem_iff_reach {X Y Z : Nat} {Q : Nat → Prop} {grid0 : Nat → Nat} {sel : Nat}
    {growth : Int} {nucleus : Nat} {st : StepState}
    (h : Full X Y Z Q grid0 sel growth nucleus (fun u j => j < 6 ∧ u ∈ st.voxellist) st)
    (v : Nat) : v ∈ st.voxellist ↔ Reach X Y Z grid0 sel nucleus v := by
  constructor
  · exact h.2.1.reach v
  · intro hr
    induction hr with
    | base _ => exact h.2.1.head
    | step _ hadj hs ih =>
      obtain ⟨j, hj, hg, rfl⟩ := hadj
      exact h.2.2.closed _ j ⟨hj, ih⟩ hg hs

/-- When the target id owns a voxel, the nucleus search returns the target id unchanged
together with the smallest index that carries it. -/
theorem findNucleus_first (grid : Nat → Nat) (N sel : Nat) :
    ∀ (fuel n0 : Nat), (∀ i, i < n0 → grid i ≠ sel) →
      (∃ i, n0 ≤ i ∧ i < N ∧ grid i = sel) → N - n0 < fuel →
      ∃ n, findNucleus grid N fuel sel n0 = some (sel, n) ∧ n < N ∧ grid n = sel ∧
        ∀ i, i < n → grid i ≠ sel := by
  intro fuel
  induction fuel with
  | zero =>
    intro n0 _ _ h
    omega
  | succ fuel ih =>
    intro n0 hbelow hex hf
    obtain ⟨i, hi1, hi2, hi3⟩ := hex
    unfold findNucleus
    by_cases h1 : grid n0 = sel
    · rw [if_neg (by simpa using h1)]
      exact ⟨n0, rfl, by omega, h1, hbelow⟩
    · rw [if_pos h1]
      have hne : i ≠ n0 := fun hc => h1 (hc ▸ hi3)
      rw [if_neg (by omega)]
      apply ih (n0 + 1)
      · intro i2 hi
        rcases Nat.lt_or_ge i2 n0 with h2 | h2
        · exact hbelow i2 h2
        · have : i2 = n0 := by omega
          subst this
          exact h1
      · exact ⟨i, by omega, hi2, hi3⟩
      · omega

/-- Claim C16. Flood fill finds the connected component. For a grid with `X, Y, Z ≥ 1` whose
ids are `≥ 1`, a target id that owns at least one voxel, and either direction: the nucleus
search returns the target id with the smallest index that carries it, the worklist loop
started there ends, and the membership list then holds exactly the voxels reachable from the
nucleus through in-domain 6-neighbour moves between voxels that carry the target id in the
pre-step grid. -/
theorem flood_component (X Y Z : Nat) (grid0 : Nat → Nat) (sel : Nat) (growth : Int)
    (fuel : Nat) (hX : 1 ≤ X) (hY : 1 ≤ Y) (_hZ : 1 ≤ Z)
    (hids : ∀ i, i < X * Y * Z → 1 ≤ grid0 i)
    (hown : ∃ i, i < X * Y * Z ∧ grid0 i = sel) (hgrowth : growth = 1 ∨ growth = -1)
    (hfuel : X * Y * Z + 2 ≤ fuel) :
    ∃ n st, findNucleus grid0 (X * Y * Z) fuel sel 0 = some (sel, n) ∧
      n < X * Y * Z ∧ grid0 n = sel ∧ (∀ i, i < n → grid0 i ≠ sel) ∧
      flood X Y Z sel growth fuel 0 (startState grid0 n) = some st ∧
      ∀ v, v ∈ st.voxellist ↔ Reach X Y Z grid0 sel n v := by
  obtain ⟨i, hi1, hi2⟩ := hown
  obtain ⟨n, hnuc, hn, hsel, hmin⟩ := findNucleus_first grid0 (X * Y * Z) sel fuel 0
    (fun i hi => absurd hi (Nat.not_lt_zero i)) ⟨i, Nat.zero_le _, hi1, hi2⟩ (by omega)
  obtain ⟨st, hst, hfull⟩ := flood_spec (fun _ => True) grid0 sel growth fuel n hX hY hgrowth
    hn hsel (fun i hi => ⟨hids i hi, trivial⟩) hfuel
  exact ⟨n, st, hnuc, hn, hsel, hmin, hst, mem_iff_reach hfull⟩

theorem flood_component_witness :
    ∃ n st, findNucleus exampleGrid (4 * 4 * 4) 66 1 0 = some (1, n) ∧
      n < 4 * 4 * 4 ∧ exampleGrid n = 1 ∧ (∀ i, i < n → exampleGrid i ≠ 1) ∧
      flood 4 4 4 1 (-1) 66 0 (startState exampleGrid n) = some st ∧
      ∀ v, v ∈ st.voxellist ↔ Reach 4 4 4 exampleGrid 1 n v :=
  flood_component 4 4 4 exampleGrid 1 (-1) 66 (by decide) (by decide) (by decide)
    (by decide) ⟨21, by decide, by decide⟩ (Or.inr rfl) (by decide)

/-- Claim C14. Grow is a one-layer dilation with a frame. For a grid with `X, Y, Z ≥ 1` whose
ids are `≥ 1` and a nucleus that carries the target id, let `C` be the set of voxels reachable
from the nucleus through target voxels. The worklist loop of a grow step ends, and in the grid
it leaves a voxel carries the target id if it carried it before or is an in-domain 6-neighbour
of a voxel of `C`, and a voxel that is neither in `C` nor an in-domain 6-neighbour of a voxel
of `C` carries its pre-step id. -/
theorem grow_dilation (X Y Z : Nat) (grid0 : Nat → Nat) (sel : Nat) (fuel nucleus : Nat)
    (hX : 1 ≤ X) (hY : 1 ≤ Y) (_hZ : 1 ≤ Z) (hids : ∀ i, i < X * Y * Z → 1 ≤ grid0 i)
    (hn : nucleus < X * Y * Z) (hsel : grid0 nucleus = sel) (hfuel : X * Y * Z + 2 ≤ fuel) :
    ∃ st, flood X Y Z sel 1 fuel 0 (startState grid0 nucleus) = some st ∧
      (∀ v, (grid0 v = sel ∨ ∃ u, Reach X Y Z grid0 sel nucleus u ∧ adjacent X Y Z u v) →
        st.grain_indicies v = sel) ∧
      (∀ v, ¬ Reach X Y Z grid0 sel nucleus v →
        ¬ (∃ u, Reach X Y Z grid0 sel nucleus u ∧ adjacent X Y Z u v) →
        st.grain_indicies v = grid0 v) := by
  obtain ⟨st, hst, hfull⟩ := flood_spec (fun _ => True) grid0 sel 1 fuel nucleus hX hY
    (Or.inl rfl) hn hsel (fun i hi => ⟨hids i hi, trivial⟩) hfuel
  obtain ⟨hF, hM, hS⟩ := hfull
  refine ⟨st, hst, ?_, ?_⟩
  · rintro v (hv | ⟨u, hu, j, hj, hg, rfl⟩)
    · exact hM.keep_sel rfl v hv
    · exact hS.grown rfl u j ⟨hj, (mem_iff_reach ⟨hF, hM, hS⟩ u).2 hu⟩ hg
  · intro v _ hnb
    by_contra hcon
    have hpos : 0 < st.reassigned v := by
      by_contra hle
      exact hcon (hF.keep v (by omega))
    obtain ⟨u, hu, hadj⟩ := hS.aff_nb rfl v ((hF.mem_iff v).2 hpos)
    exact hnb ⟨u, hM.reach u hu, hadj⟩

theorem grow_dilation_witness :
    ∃ st, flood 4 4 4 1 1 66 0 (startState exampleGrid 21) = some st ∧
      (∀ v, (exampleGrid v = 1 ∨ ∃ u, Reach 4 4 4 exampleGrid 1 21 u ∧ adjacent 4 4 4 u v) →
        st.grain_indicies v = 1) ∧
      (∀ v, ¬ Reach 4 4 4 exampleGrid 1 21 v →
        ¬ (∃ u, Reach 4 4 4 exampleGrid 1 21 u ∧ adjacent 4 4 4 u v) →
        st.grain_indicies v = exampleGrid v) :=
  grow_dilation 4 4 4 exampleGrid 1 66 21 (by decide) (by decide) (by decide)
    (by decide) (by decide) (by decide) (by decide)

/-- Claim C15. Shrink removes exactly the boundary layer. For a grid with `X, Y, Z ≥ 1` whose
ids are `≥ 1` and a nucleus that carries the target id, let `C` be the set of voxels reachable
from the nucleus through target voxels. The worklist loop of a shrink step ends, and in the
grid it leaves a voxel has changed its id exactly when it is in `C` and has, in the pre-step
grid, an in-domain 6-neighbour of another id; its new id is the pre-step id of the first such
neighbour in the order of the directions `0 .. 5` (`-z, -y, -x, +x, +y, +z`). Every other
voxel keeps its pre-step id. -/
theorem shrink_layer (X Y Z : Nat) (grid0 : Nat → Nat) (sel : Nat) (fuel nucleus : Nat)
    (hX : 1 ≤ X) (hY : 1 ≤ Y) (_hZ : 1 ≤ Z) (hids : ∀ i, i < X * Y * Z → 1 ≤ grid0 i)
    (hn : nucleus < X * Y * Z) (hsel : grid0 nucleus = sel) (hfuel : X * Y * Z + 2 ≤ fuel) :
    ∃ st, flood X Y Z sel (-1) fuel 0 (startState grid0 nucleus) = some st ∧
      (∀ v, st.grain_indicies v ≠ grid0 v ↔
        (Reach X Y Z grid0 sel nucleus v ∧
          ∃ j, j < 6 ∧ good X Y Z v j = 1 ∧ grid0 (neighpoint X Y v j).toNat ≠ grid0 v)) ∧
      (∀ v j, Reach X Y Z grid0 sel nucleus v → j < 6 → good X Y Z v j = 1 →
        grid0 (neighpoint X Y v j).toNat ≠ grid0 v →
        (∀ j2, j2 < j → good X Y Z v j2 = 1 → grid0 (neighpoint X Y v j2).toNat = grid0 v) →
        st.grain_indicies v = grid0 (neighpoint X Y v j).toNat) := by
  obtain ⟨st, hst, hfull⟩ := flood_spec (fun _ => True) grid0 sel (-1) fuel nucleus hX hY
    (Or.inr rfl) hn hsel (fun i hi => ⟨hids i hi, trivial⟩) hfuel
  obtain ⟨hF, hM, hS⟩ := hfull
  have hchanged : ∀ v, st.grain_indicies v ≠ grid0 v → v ∈ st.affectedvoxellist := by
    intro v hv
    apply (hF.mem_iff v).2
    by_contra hle
    exact hv (hF.keep v (by omega))
  have hlayer : ∀ v j, Reach X Y Z grid0 sel nucleus v → j < 6 → good X Y Z v j = 1 →
      grid0 (neighpoint X Y v j).toNat ≠ grid0 v → st.grain_indicies v ≠ grid0 v := by
    intro v j hv hj hg hne
    have hvs := hv.sel
    rw [hvs] at hne ⊢
    exact hS.shrunk rfl v j ⟨hj, (mem_iff_reach ⟨hF, hM, hS⟩ v).2 hv⟩ hg hne
  refine ⟨st, hst, ?_, ?_⟩
  · intro v
    constructor
    · intro hv
      have hin := hchanged v hv
      have hr := hM.reach v (hM.aff_shrink rfl v hin)
      obtain ⟨j, hj, hg, hne, -, -⟩ := hS.aff_first rfl v hin
      refine ⟨hr, j, hj, hg, ?_⟩
      rw [hr.sel]
      exact hne
    · rintro ⟨hr, j, hj, hg, hne⟩
      exact hlayer v j hr hj hg hne
  · intro v j hv hj hg hne hfirst
    have hin := hchanged v (hlayer v j hv hj hg hne)
    obtain ⟨j1, hj1, hg1, hne1, hval, hfirst1⟩ := hS.aff_first rfl v hin
    have hvs := hv.sel
    rcases lt_trichotomy j1 j with h1 | h1 | h1
    · have := hfirst j1 h1 hg1
      rw [hvs] at this
      exact absurd this hne1
    · subst h1
      exact hval
    · have := hfirst1 j h1 hg
      rw [hvs] at hne
      exact absurd this hne

theorem shrink_layer_witness :
    ∃ st, flood 4 4 4 1 (-1) 66 0 (startState exampleGrid 21) = some st ∧
      (∀ v, st.grain_indicies v ≠ exampleGrid v ↔
        (Reach 4 4 4 exampleGrid 1 21 v ∧
          ∃ j, j < 6 ∧ good 4 4 4 v j = 1 ∧
            exampleGrid (neighpoint 4 4 v j).toNat ≠ exampleGrid v)) ∧
      (∀ v j, Reach 4 4 4 exampleGrid 1 21 v → j < 6 → good 4 4 4 v j = 1 →
        exampleGrid (neighpoint 4 4 v j).toNat ≠ exampleGrid v →
        (∀ j2, j2 < j → good 4 4 4 v j2 = 1 →
          exampleGrid (neighpoint 4 4 v j2).toNat = exampleGrid v) →
        st.grain_indicies v = exampleGrid (neighpoint 4 4 v j).toNat) :=
  shrink_layer 4 4 4 exampleGrid 1 66 21 (by decide) (by decide) (by decide)
    (by decide) (by decide) (by decide) (by decide)

end AdjustVolume
